import Mathlib

/-!
Verification development for the GRAPHITE_Automation dependency-update agent
(`agent_logic.py`, class `DependencyAgent`).  The Python code is shallowly
embedded: pure string manipulation is translated to functions on `String` /
`List Char`; external effects (pip installs, the validation oracle, the PyPI
registry, the LLM client, the file system) are modelled as explicit oracle
parameters; the mutable object state (`self.llm_available`, the requirements
file, `dynamic_constraints`) is threaded as explicit state.  Version values
handled only through `packaging.version.parse` comparisons are modelled as
`Nat` (an abstract linearly ordered version domain) or as parsed
`PyVersion` records; an unparsable version string is modelled as `none`.
-/

namespace Graphite

/-! ## Package-name handling

`_get_package_name_from_spec` (agent_logic.py lines 61-63) matches the
regex `([a-zA-Z0-9\-_]+)` at the start of the line and returns the matched
run, or `None` when the first character is not in the class. -/

/-- Character class of the regex `[a-zA-Z0-9\-_]` (ASCII letters, digits,
hyphen, underscore). -/
def isNameChar (c : Char) : Bool :=
  c.isAlpha || c.isDigit || c == '-' || c == '_'

/-- Embedding of `_get_package_name_from_spec`: the maximal leading run of
name characters, `none` when that run is empty (then `re.match` fails and
the Python function returns `None`).  No case folding and no separator
folding happens here. -/
def getPackageNameFromSpec (specLine : String) : Option String :=
  match specLine.toList.takeWhile isNameChar with
  | [] => none
  | run => some (String.mk run)

/-- Embedding of the key normalisation in `_calculate_risk_scores`
(line 56): `name.replace('_', '-')` applied to usage-score dictionary keys.
Only underscores are rewritten; letter case is untouched. -/
def underscoreToHyphen (s : String) : String :=
  String.mk (s.toList.map (fun c => if c == '_' then '-' else c))

/-! ## Requirements-file reading (`_get_requirements_state`, lines 71-77) -/

/-- Python `str.strip()` on both ends (whitespace removal). -/
def pyStrip (s : String) : String :=
  String.mk (((s.toList.dropWhile Char.isWhitespace).reverse.dropWhile
    Char.isWhitespace).reverse)

/-- Python `line.startswith('#')`. -/
def startsWithHash (s : String) : Bool :=
  match s.toList with
  | c :: _ => c == '#'
  | [] => false

/-- Does a character list contain the substring `==`? -/
def containsEqEq : List Char → Bool
  | '=' :: '=' :: _ => true
  | _ :: rest => containsEqEq rest
  | [] => false

/-- Python `'==' in line`. -/
def hasEqEq (s : String) : Bool := containsEqEq s.toList

/-- Result of reading the requirements ledger at run start.  The
`fatalExit` constructor exists so that the spec's claimed "ledger missing
is a distinct fatal exit" is expressible; the embedded code never produces
it. -/
inductive ReqReadResult
  | proceed (isPinned : Bool) (lines : List String)
  | fatalExit
deriving DecidableEq

/-- Embedding of `_get_requirements_state`.  `file = none` models the
ledger file being absent: the code prints a warning and returns
`(False, [])` (lines 72-74) — it does not exit.  Otherwise each raw line is
kept when its stripped form is non-empty and the raw line does not start
with `#`, and the stripped lines are returned together with the
fully-pinned flag `all('==' in line)`. -/
def getRequirementsState (file : Option (List String)) : ReqReadResult :=
  match file with
  | none => ReqReadResult.proceed false []
  | some raw =>
    let lines := (raw.filter
      (fun l => !(pyStrip l == ("")) && !(startsWithHash l))).map pyStrip
    ReqReadResult.proceed (lines.all hasEqEq) lines

/-- First action of `run()` (lines 230-237) as a function of the ledger
state: an unpinned (or absent) ledger sends the run into bootstrap, a
pinned one straight into the update loop; `fatalStop` is the hypothetical
distinct fatal path of the claim. -/
inductive RunStartAction
  | bootstrapFirst
  | updateLoop
  | fatalStop
deriving DecidableEq

/-- Dispatch of `run()` on the ledger-read result. -/
def runStartAction (file : Option (List String)) : RunStartAction :=
  match getRequirementsState file with
  | ReqReadResult.proceed true _ => RunStartAction.updateLoop
  | ReqReadResult.proceed false _ => RunStartAction.bootstrapFirst
  | ReqReadResult.fatalExit => RunStartAction.fatalStop

/-! ## Install-request construction (`_try_install_and_validate`,
lines 371-375) -/

/-- Embedding of the request-list construction: every ledger line whose
extracted name equals the probed package is replaced by
`{package}=={new_version}`, then every dynamic constraint whose extracted
name is NOT the probed package is appended. -/
def buildRequirementsList (packageToUpdate newVersion : String)
    (fileLines constraints : List String) : List String :=
  (fileLines.map (fun l =>
    if getPackageNameFromSpec l = some packageToUpdate then
      packageToUpdate ++ ("==") ++ newVersion
    else l))
  ++ constraints.filter
      (fun c => !(getPackageNameFromSpec c == some packageToUpdate))

/-! ## Risk scoring (`_calculate_update_risk`, lines 310-319) -/

/-- Parsed version as far as `_calculate_update_risk` inspects it
(`packaging.version.parse` exposes `major`/`minor`/`micro`). -/
structure PyVersion where
  major : Nat
  minor : Nat
  micro : Nat
deriving DecidableEq

/-- Severity computation of `_calculate_update_risk` translated from the
source: the `try` body compares parsed majors then minors, and the bare
`except` yields 1 when either version fails to parse (`none`). -/
def severityOfUpdate (cur tgt : Option PyVersion) : Nat :=
  match cur, tgt with
  | some o, some n =>
    if n.major > o.major then 3
    else if n.minor > o.minor then 2
    else 1
  | _, _ => 1

/-- Embedding of `_calculate_update_risk`: `self.usage_scores` is an
association list with `get(package, 0)` lookup, `self.primary_packages` a
name list with membership test; the float arithmetic
`usage*5.0 + is_primary*3.0 + severity*2.0` is exact at these magnitudes
and modelled in `ℚ`. -/
def calculateUpdateRisk (usageScores : List (String × Nat))
    (primaryPackages : List String) (pkg : String)
    (cur tgt : Option PyVersion) : ℚ :=
  let usage : Nat := (usageScores.lookup pkg).getD 0
  let isPrimary : Nat := if pkg ∈ primaryPackages then 1 else 0
  (usage : ℚ) * 5 + (isPrimary : ℚ) * 3 + (severityOfUpdate cur tgt : ℚ) * 2

/-- Severity as the SPEC words it (claim C2 and spec §4.1): 3 when the
target's major exceeds the current's, else 2 when the target's minor
exceeds, else 1, including when a version string is unparsable. -/
def severitySpec (cur tgt : Option PyVersion) : Nat :=
  match cur, tgt with
  | some c, some t =>
    if t.major > c.major then 3
    else if t.minor > c.minor then 2
    else 1
  | _, _ => 1

/-- Risk formula as the SPEC words it: `u·W1 + p·W2 + s·W3` with default
weights W1 = 5, W2 = 3, W3 = 2. -/
def riskSpec (u : Nat) (p : Bool) (s : Nat) : ℚ :=
  (u : ℚ) * 5 + (if p then (1 : ℚ) else 0) * 3 + (s : ℚ) * 2

/-- One plan entry `(package, current_version, target_version)` with parsed
versions. -/
abbrev PlanItem := String × Option PyVersion × Option PyVersion

/-- Embedding of `packages_to_update.sort(key=risk, reverse=True)`
(line 271): a stable descending sort by risk score.  Python's `list.sort`
is stable, and a stable sort by a total preorder is unique, so the stable
`List.insertionSort` with `riskOf a ≥ riskOf b` computes the same list. -/
def sortPlanByRisk (usageScores : List (String × Nat))
    (primaryPackages : List String) (plan : List PlanItem) : List PlanItem :=
  plan.insertionSort (fun a b =>
    calculateUpdateRisk usageScores primaryPackages b.1 b.2.1 b.2.2 ≤
    calculateUpdateRisk usageScores primaryPackages a.1 a.2.1 a.2.2)

/-- Usage scores of the spec's worked example (§8): `usage(numpy)=2`,
`usage(pandas)=1`. -/
def exampleUsageScores : List (String × Nat) := [(("numpy"), 2), (("pandas"), 1)]

/-- Primary packages of the worked example: numpy is primary, pandas not. -/
def examplePrimary : List String := [("numpy")]

/-- Worked-example plan entry: numpy 1.24.0 → 2.0.0 (major bump). -/
def numpyItem : PlanItem := (("numpy"), some ⟨1, 24, 0⟩, some ⟨2, 0, 0⟩)

/-- Worked-example plan entry: pandas 2.0.0 → 2.1.0 (minor bump). -/
def pandasItem : PlanItem := (("pandas"), some ⟨2, 0, 0⟩, some ⟨2, 1, 0⟩)

/-! ## Binary-search backtracking (`_binary_search_backtrack`,
lines 449-487, and `get_all_versions_between`, lines 489-496)

Version values are compared only through `packaging.version.parse`, so the
version domain is modelled as `Nat`; the probe
(`_try_install_and_validate` at one candidate) is abstracted to a Boolean
function of the candidate version. -/

/-- Fuel-indexed embedding of the `while low <= high` loop of
`_binary_search_backtrack` (lines 463-481), generic in the version type.
Each iteration probes `versions[mid]` for `mid = (low + high) // 2`
(operands are non-negative whenever the loop runs, so Lean's integer
division agrees with Python's floor division); success records the probed
version as the new `best_working_result` and sets `low = mid + 1`, failure
sets `high = mid - 1`.  The second result component is the sequence of
probed versions in probe order.  The fuel only bounds the iteration count:
the window `high + 1 - low` shrinks at every iteration, so fuel equal to
the initial window size (supplied by `bsLoop`) makes the fuel-exhausted
base case unreachable. -/
def bsLoopF {α : Type} (probe : α → Bool) (vs : List α) (dflt : α) :
    Nat → Int → Int → Option α → Option α × List α
  | 0, _, _, best => (best, [])
  | fuel + 1, low, high, best =>
    if low ≤ high then
      let mid := (low + high) / 2
      let v := vs.getD mid.toNat dflt
      if probe v then
        let r := bsLoopF probe vs dflt fuel (mid + 1) high (some v)
        (r.1, v :: r.2)
      else
        let r := bsLoopF probe vs dflt fuel low (mid - 1) best
        (r.1, v :: r.2)
    else (best, [])

/-- The loop of `_binary_search_backtrack` with sufficient fuel. -/
def bsLoop {α : Type} (probe : α → Bool) (vs : List α) (dflt : α)
    (low high : Int) (best : Option α) : Option α × List α :=
  bsLoopF probe vs dflt (high + 1 - low).toNat low high best

/-- Embedding of `_binary_search_backtrack` (lines 449-487) with the probe
abstracted: when the candidate list is empty the code first probes
`last_good_version` alone and returns it on success; on failure control
falls through to the loop, which starts with `low, high = 0, -1`, runs zero
iterations and leaves `best_working_result = None`.  For a non-empty list
the loop runs on `low, high = 0, len(versions) - 1`.  The second component
is the full sequence of probed versions. -/
def binarySearchBacktrack {α : Type} (probe : α → Bool) (lastGood : α)
    (versions : List α) : Option α × List α :=
  if versions.isEmpty then
    if probe lastGood then (some lastGood, [lastGood])
    else
      let r := bsLoop probe versions lastGood 0 ((versions.length : Int) - 1)
        none
      (r.1, lastGood :: r.2)
  else
    bsLoop probe versions lastGood 0 ((versions.length : Int) - 1) none

/-- Embedding of `get_all_versions_between` over the `Nat` version domain:
keep the registry-known versions in `[startV, endV)` that are not
prereleases, deduplicate (the code builds a Python set of parsed versions),
and sort ascending by version precedence (`sorted(..., key=parse_version)`;
on distinct keys every sort computes the same ascending list, here by
`List.insertionSort`). -/
def getAllVersionsBetween (registry : List Nat) (isPrerelease : Nat → Bool)
    (startV endV : Nat) : List Nat :=
  ((registry.filter (fun v =>
    decide (startV ≤ v) && decide (v < endV) &&
      !(isPrerelease v))).dedup).insertionSort (· ≤ ·)

/-! ## One update attempt (`_try_install_and_validate` lines 365-398,
`_handle_success` lines 436-447, `attempt_update_with_healing`
lines 400-434)

External effects are collected in an `AttemptEnv` oracle: `install` and
`validate` give the outcome of `pip install` / `validate_changes` as a
function of the request list (each probe's venv is destroyed and rebuilt,
so the outcome depends only on the requested spec set), `freeze` gives the
pruned `pip freeze` output of the environment built from a request,
`rootCause` is the parsed JSON object returned by
`_ask_llm_for_root_cause` (an association list; `[]` is the falsy `{}`),
`candidates` the list from `_ask_llm_for_version_candidates`, `verLE` the
`parse_version` comparison on version strings, and `versionsBetween` the
result of `get_all_versions_between(package, current, target)`.  Log
strings (failure-reason text, metric text) do not influence control flow
and are elided. -/

/-- Oracle for the external collaborators of one update attempt. -/
structure AttemptEnv where
  install : List String → Bool
  validate : List String → Bool
  freeze : List String → List String
  rootCause : List (String × String)
  candidates : List String
  verLE : String → String → Bool
  versionsBetween : List String

/-- Record of one probe: probed package and version, the install request
sent to pip, whether the install succeeded, whether the validation oracle
was actually run, and its verdict when run. -/
structure ProbeEv where
  pkg : String
  ver : String
  request : List String
  installOk : Bool
  validationRan : Bool
  validationOk : Bool
deriving DecidableEq

/-- Observable events of one attempt: probes, and ledger rewrites (the
`_handle_success` write of the pruned freeze output, tagged with the
finalized package and version). -/
inductive AttemptEv
  | probe (p : ProbeEv)
  | write (pkg ver : String) (content : List String)
deriving DecidableEq

/-- File preprocessing of `_try_install_and_validate` (lines 371-372):
`[line.strip() for line in f if line.strip()]` — comment lines are NOT
dropped here. -/
def probeFileLines (raw : List String) : List String :=
  (raw.filter (fun l => !(pyStrip l == ("")))).map pyStrip

/-- Embedding of `_try_install_and_validate`: build the request and run
the install; on install failure report failure with validation not run;
when the probed version string equals `old_version` and no package changed
this pass, skip validation and report success; otherwise run the
validation oracle and report its verdict.  Returns the success flag and
the probe record. -/
def tryInstallAndValidate (env : AttemptEnv) (raw : List String)
    (pkg newVer oldVer : String) (constraints : List String)
    (changed : Bool) : Bool × ProbeEv :=
  let request := buildRequirementsList pkg newVer (probeFileLines raw)
    constraints
  if !(env.install request) then
    (false, ⟨pkg, newVer, request, false, false, false⟩)
  else if newVer == oldVer && !changed then
    (true, ⟨pkg, newVer, request, true, false, false⟩)
  else
    (env.validate request,
      ⟨pkg, newVer, request, true, true, env.validate request⟩)

/-- Python `str(x)` of an optional dictionary value: `dict.get` yields
`None` for a missing key and the constraint f-string renders it as the
text `None`. -/
def pyStrOpt : Option String → String
  | some s => s
  | none => ("None")

/-- Lookup in a parsed JSON object modelled as an association list. -/
def dictGet (d : List (String × String)) (k : String) : Option String :=
  d.lookup k

/-- The advisor-candidate loop of `attempt_update_with_healing`
(lines 417-425): candidates not above the current version are skipped,
each remaining candidate is fully probed, and the first success is
finalized by `_handle_success` (a ledger write of the freeze output). -/
def candidatesLoop (env : AttemptEnv) (raw : List String)
    (pkg curVer : String) (constraints : List String) (changed : Bool) :
    List String → Option String × List AttemptEv
  | [] => (none, [])
  | c :: rest =>
    if env.verLE c curVer then
      candidatesLoop env raw pkg curVer constraints changed rest
    else
      let pr := tryInstallAndValidate env raw pkg c curVer constraints
        changed
      if pr.1 then
        (some c, [AttemptEv.probe pr.2,
          AttemptEv.write pkg c (env.freeze pr.2.request)])
      else
        let r := candidatesLoop env raw pkg curVer constraints changed rest
        (r.1, AttemptEv.probe pr.2 :: r.2)

/-- Probe function handed to the binary search: success of
`_try_install_and_validate` at one candidate version (the loop passes
`old_version = last_good_version`, which `attempt_update_with_healing`
sets to the package's current version). -/
def bsProbe (env : AttemptEnv) (raw : List String) (pkg curVer : String)
    (constraints : List String) (changed : Bool) (v : String) : Bool :=
  (tryInstallAndValidate env raw pkg v curVer constraints changed).1

/-- Probe record of one binary-search probe. -/
def bsProbeEv (env : AttemptEnv) (raw : List String) (pkg curVer : String)
    (constraints : List String) (changed : Bool) (v : String) : ProbeEv :=
  (tryInstallAndValidate env raw pkg v curVer constraints changed).2

/-- Result and events of `_binary_search_backtrack` inside an attempt:
each probe's outcome and record are functions of the probed version (the
per-request environment is deterministic), so the event list is the probed
versions mapped to their records. -/
def binarySearchEvents (env : AttemptEnv) (raw : List String)
    (pkg curVer : String) (constraints : List String) (changed : Bool) :
    Option String × List AttemptEv :=
  let r := binarySearchBacktrack
    (bsProbe env raw pkg curVer constraints changed) curVer
    env.versionsBetween
  (r.1, r.2.map (fun v =>
    AttemptEv.probe (bsProbeEv env raw pkg curVer constraints changed v)))

/-- Embedding of `attempt_update_with_healing`: direct attempt at the
target version; on failure, root-cause diagnosis (returning a synthesized
constraint when the returned object is non-empty and blames a package
other than the one being updated), then advisor candidates, then the
binary-search backtrack.  Each successful path ends in `_handle_success`,
which rewrites the requirements ledger with the pruned freeze output of
the successful probe's environment.  Result: (success, reached version or
failure reason, learned constraint), with the attempt's event list. -/
def attemptUpdateWithHealing (env : AttemptEnv) (raw : List String)
    (pkg curVer targetVer : String) (constraints : List String)
    (changed : Bool) :
    (Bool × String × Option String) × List AttemptEv :=
  let pr1 := tryInstallAndValidate env raw pkg targetVer curVer constraints
    changed
  if pr1.1 then
    ((true, targetVer, none),
      [AttemptEv.probe pr1.2,
        AttemptEv.write pkg targetVer (env.freeze pr1.2.request)])
  else if !(env.rootCause.isEmpty) &&
      !(dictGet env.rootCause ("package") == some pkg) then
    ((false, ("Diagnosed incompatibility"),
      some (pyStrOpt (dictGet env.rootCause ("package"))
        ++ pyStrOpt (dictGet env.rootCause ("suggested_constraint")))),
      [AttemptEv.probe pr1.2])
  else
    let cl := candidatesLoop env raw pkg curVer constraints changed
      env.candidates
    match cl.1 with
    | some c => ((true, c, none), AttemptEv.probe pr1.2 :: cl.2)
    | none =>
      let bs := binarySearchEvents env raw pkg curVer constraints changed
      match bs.1 with
      | some v =>
        ((true, v, none),
          AttemptEv.probe pr1.2 :: (cl.2 ++ (bs.2
            ++ [AttemptEv.write pkg v
              (env.freeze (bsProbeEv env raw pkg curVer constraints
                changed v).request)])))
      | none =>
        ((false, ("All backtracking attempts failed."), none),
          AttemptEv.probe pr1.2 :: (cl.2 ++ bs.2))

/-- Justification of a ledger write of version `ver` by an earlier probe,
as amended: a probe of that same version whose install succeeded and whose
validation either ran and passed, or was skipped precisely because the
probed version equals the attempt's current version and no package had
changed in the pass. -/
def WriteJust (curVer : String) (changed : Bool) (l₁ : List AttemptEv)
    (ver : String) : Prop :=
  ∃ p : ProbeEv, AttemptEv.probe p ∈ l₁ ∧ p.ver = ver ∧
    p.installOk = true ∧
    ((p.validationRan = true ∧ p.validationOk = true) ∨
      (p.validationRan = false ∧ ver = curVer ∧ changed = false))

/-- Claim C4 as stated: every ledger write in the event list is preceded,
within the attempt, by a probe whose install succeeded and whose
validation was actually run and passed. -/
def writesValidatedStrict (evs : List AttemptEv) : Prop :=
  ∀ l₁ pkg ver content l₂,
    evs = l₁ ++ AttemptEv.write pkg ver content :: l₂ →
    ∃ p : ProbeEv, AttemptEv.probe p ∈ l₁ ∧ p.installOk = true ∧
      p.validationRan = true ∧ p.validationOk = true

/-- Amended C4 predicate: every ledger write is justified in the sense of
`WriteJust` by a probe preceding it in the event list. -/
def writesValidatedAmended (curVer : String) (changed : Bool)
    (evs : List AttemptEv) : Prop :=
  ∀ l₁ pkg ver content l₂,
    evs = l₁ ++ AttemptEv.write pkg ver content :: l₂ →
    WriteJust curVer changed l₁ ver

/-- Environment of the C4 counterexample: installing the target `p==2.0`
fails, every other request installs fine, validation would pass, the
advisor returns nothing, and the registry has no version strictly between
current and target. -/
def cexEnv : AttemptEnv where
  install := fun req => !(req.contains ("p==2.0"))
  validate := fun _ => true
  freeze := fun _ => [("p==1.0")]
  rootCause := []
  candidates := []
  verLE := fun _ _ => false
  versionsBetween := []

/-! ## The multi-pass update loop (`run`, lines 230-308)

The loop skeleton is embedded with its two big externals abstracted as
oracles: plan building (lines 250-276, dominated by registry lookups,
`parse_version` comparisons and unspecified Python set iteration order) is
a function `buildPlan` of the processed ledger lines and the active
constraint list, and one package attempt (`attempt_update_with_healing`,
embedded in detail above) is a function `attempt` of the ledger content,
the active constraints, the plan entry and the changed-set, returning the
success flag, the reached version (or failure reason), the optionally
learned constraint, and the ledger content after the attempt.  The control
flow — the bookkeeping dictionaries, the learned-constraint break, the
pass restart and the stop conditions — is translated from the source. -/

/-- Result of one `attempt_update_with_healing` call as `run` consumes it,
plus the requirements-file content after the attempt. -/
structure AttemptRes where
  success : Bool
  reached : String
  learned : Option String
  newFile : List String
deriving DecidableEq

/-- Oracle for the externals of the run loop. -/
structure RunEnv where
  buildPlan : List String → List String → List (String × String × String)
  attempt : List String → List String → String × String × String →
    List String → AttemptRes

/-- Mutable state of `run`: the ledger file, `dynamic_constraints`,
`final_successful_updates` and `final_failed_updates`. -/
structure RunState where
  file : List String
  constraints : List String
  succ : List (String × String × String)
  failed : List (String × String × String)
deriving DecidableEq

/-- One attempt call as recorded in the run trace. -/
structure AttemptCall where
  passNum : Nat
  pkg : String
  curVer : String
  tgtVer : String
  constraintsAtCall : List String
  changedAtCall : List String
  res : AttemptRes
deriving DecidableEq

/-- Run-trace events: plan constructions and package attempts, each
recording the constraint list it was made with. -/
inductive RunEv
  | planBuilt (passNum : Nat) (fileLines : List String)
      (constraintsAtBuild : List String)
  | attempted (c : AttemptCall)
deriving DecidableEq

/-- Pass number of a run-trace event. -/
def RunEv.passOf : RunEv → Nat
  | RunEv.planBuilt n _ _ => n
  | RunEv.attempted c => c.passNum

/-- Constraint list a run-trace event was made with. -/
def RunEv.constraintsOf : RunEv → List String
  | RunEv.planBuilt _ _ cs => cs
  | RunEv.attempted c => c.constraintsAtCall

/-- Python dict assignment `d[k] = v` on an insertion-ordered association
list. -/
def assocSet (d : List (String × String × String)) (k : String)
    (v : String × String) : List (String × String × String) :=
  if d.any (fun e => e.1 == k) then
    d.map (fun e => if e.1 == k then (k, v) else e)
  else d ++ [(k, v.1, v.2)]

/-- Python `del d[k]` (no-op when absent, as guarded in the source). -/
def assocDel (d : List (String × String × String)) (k : String) :
    List (String × String × String) :=
  d.filter (fun e => !(e.1 == k))

/-- Processed ledger lines as `_get_requirements_state` returns them at
the top of each pass. -/
def reqLines (raw : List String) : List String :=
  (raw.filter (fun l => !(pyStrip l == ("")) && !(startsWithHash l))).map
    pyStrip

/-- Outcome of one pass's inner loop. -/
structure PassOut where
  st : RunState
  changed : List String
  learnedNew : Bool
  evs : List RunEv
deriving DecidableEq

/-- The inner for-loop of one pass (lines 279-295): attempt each plan item
in order; on success record it in `final_successful_updates`, drop it from
`final_failed_updates`, and add it to the changed-set when the reached
version differs from the current one; on failure record it in
`final_failed_updates` and — when the learned constraint is truthy
(non-empty) and not already active — append the constraint and break out
of the pass immediately. -/
def execItems (env : RunEnv) (passNum : Nat) :
    List (String × String × String) → RunState → List String → PassOut
  | [], st, changed => ⟨st, changed, false, []⟩
  | item :: rest, st, changed =>
    let res := env.attempt st.file st.constraints item changed
    let call : AttemptCall :=
      ⟨passNum, item.1, item.2.1, item.2.2, st.constraints, changed, res⟩
    if res.success then
      let st' : RunState :=
        { st with
          file := res.newFile
          succ := assocSet st.succ item.1 (item.2.2, res.reached)
          failed := assocDel st.failed item.1 }
      let changed' :=
        if item.2.1 != res.reached && !(changed.contains item.1) then
          changed ++ [item.1]
        else changed
      let r := execItems env passNum rest st' changed'
      ⟨r.st, r.changed, r.learnedNew, RunEv.attempted call :: r.evs⟩
    else
      let st' : RunState :=
        { st with
          file := res.newFile
          failed := assocSet st.failed item.1 (item.2.2, res.reached) }
      match res.learned with
      | some x =>
        if !(x == ("")) && !(st.constraints.contains x) then
          ⟨{ st' with constraints := st.constraints ++ [x] }, changed, true,
            [RunEv.attempted call]⟩
        else
          let r := execItems env passNum rest st' changed
          ⟨r.st, r.changed, r.learnedNew, RunEv.attempted call :: r.evs⟩
      | none =>
        let r := execItems env passNum rest st' changed
        ⟨r.st, r.changed, r.learnedNew, RunEv.attempted call :: r.evs⟩

/-- The outer pass loop of `run` (lines 244-304): bounded by
`MAX_RUN_PASSES` (the fuel, faithful to `while pass_num < MAX`), each pass
reads the ledger, builds the plan from the processed lines and the active
constraints, stops on an empty plan, executes the pass, restarts on a
newly learned constraint, and otherwise stops when no effective version
change happened this pass.  The trace records every plan construction and
attempt together with the constraints in force. -/
def runLoop (env : RunEnv) : Nat → Nat → RunState → RunState × List RunEv
  | 0, _, st => (st, [])
  | fuel + 1, passNum, st =>
    let plan := env.buildPlan (reqLines st.file) st.constraints
    let built := RunEv.planBuilt (passNum + 1) (reqLines st.file)
      st.constraints
    if plan.isEmpty then (st, [built])
    else
      let p := execItems env (passNum + 1) plan st []
      if p.learnedNew then
        let r := runLoop env fuel (passNum + 1) p.st
        (r.1, built :: (p.evs ++ r.2))
      else if p.changed.isEmpty then (p.st, built :: p.evs)
      else
        let r := runLoop env fuel (passNum + 1) p.st
        (r.1, built :: (p.evs ++ r.2))

/-- Claim C3 as stated, decidably: after every failed attempt whose
diagnosis blamed another package (a learned constraint was synthesized),
no further attempt of the same pass may follow. -/
def noLaterSamePass (c : AttemptCall) : List RunEv → Bool
  | [] => true
  | RunEv.attempted c' :: rest =>
    !(c'.passNum == c.passNum) && noLaterSamePass c rest
  | _ :: rest => noLaterSamePass c rest

/-- Decidable check of C3 as stated over a run trace. -/
def abortsAfterBlame : List RunEv → Bool
  | [] => true
  | RunEv.attempted c :: rest =>
    (if !c.res.success && !(c.res.learned == none) then
      noLaterSamePass c rest
    else true) && abortsAfterBlame rest
  | _ :: rest => abortsAfterBlame rest

/-- C3 counterexample environment: package `a` always fails with the
diagnosis `b<2`; once that constraint is active the plan also contains
package `d`, which updates fine. -/
def cexRunEnv : RunEnv where
  buildPlan := fun _ cs =>
    if cs.isEmpty then [(("a"), ("1"), ("2"))]
    else [(("a"), ("1"), ("2")), (("d"), ("1"), ("2"))]
  attempt := fun file _ item _ =>
    if item.1 == ("a") then ⟨false, ("fail"), some ("b<2"), file⟩
    else ⟨true, ("2"), none, file⟩

/-- Initial state of the C3 counterexample run. -/
def cexRunSt : RunState := ⟨[("a==1")], [], [], []⟩

/-- C3 witness environment: one package that fails learning `x<1`; with
the constraint active the plan is empty. -/
def wRunEnv : RunEnv where
  buildPlan := fun _ cs =>
    if cs.isEmpty then [(("a"), ("1"), ("2"))] else []
  attempt := fun file _ _ _ => ⟨false, ("fail"), some ("x<1"), file⟩

/-- Initial state of the C3 witness run. -/
def wRunSt : RunState := ⟨[], [], [], []⟩

/-- The attempt call of the C3 witness run's first pass. -/
def wCall : AttemptCall :=
  ⟨1, ("a"), ("1"), ("2"), [], [], ⟨false, ("fail"), some ("x<1"), []⟩⟩

/-! ## The LLM advisor (`_ask_llm_to_summarize_error` lines 498-508,
`_ask_llm_for_root_cause` lines 514-551, `_ask_llm_for_version_candidates`
lines 553-579, `_attempt_llm_bootstrap_heal` lines 139-198)

Python exception semantics are explicit: the try-bodies are
`Except`-valued over modelled exception kinds and the `except` cascades
are translated clause by clause, so "never raises" is a theorem about the
cascades covering every exception the client can raise, not an artefact of
Lean totality.  The client's behaviour at one call is an oracle `LLMResp`
(a response text, or a raised exception of the kinds the claims quantify
over — all `Exception` subclasses); `json.loads` / `ast.literal_eval` on
extracted payload text are oracles returning `none` on their parse
exceptions.  The shared mutable state is `self.llm_available` plus a
counter of `generate_content` invocations.  Prompt texts and the
requirements-file read of `_ask_llm_for_root_cause` (line 517, outside the
try block and outside the claims' quantification) do not influence control
flow and are elided. -/

/-- Exception kinds an LLM call can raise: quota exhaustion
(`ResourceExhausted`), deadline exceeded, transport errors, any other
`Exception` subclass. -/
inductive LLMExc
  | resourceExhausted
  | deadlineExceeded
  | transportError
  | otherError
deriving DecidableEq

/-- Python exceptions in flight inside the advisor entry points.
`systemExit` models a `BaseException` that is NOT an `Exception` subclass:
it is never raised by the modelled client, and the translated cascades
would let it propagate — making "never raises" a fact about the cascade,
not about totality. -/
inductive PyExc
  | fromLLM (e : LLMExc)
  | jsonDecodeError
  | valueOrSyntaxError
  | attributeError
  | systemExit
deriving DecidableEq

/-- Is the exception an `Exception` subclass (caught by
`except Exception`)? -/
def PyExc.isExceptionClass : PyExc → Bool
  | PyExc.systemExit => false
  | _ => true

/-- One client call's behaviour. -/
inductive LLMResp
  | text (s : String)
  | raise (e : LLMExc)
deriving DecidableEq

/-- Shared advisor state: `self.llm_available` and a counter of
`generate_content` invocations. -/
structure LLMState where
  available : Bool
  calls : Nat
deriving DecidableEq

/-- The `self.llm.generate_content(...)` call: counts one invocation and
either returns the response text or raises. -/
def generateContent (resp : LLMResp) (st : LLMState) :
    Except PyExc String × LLMState :=
  match resp with
  | LLMResp.text s => (Except.ok s, { st with calls := st.calls + 1 })
  | LLMResp.raise e =>
    (Except.error (PyExc.fromLLM e), { st with calls := st.calls + 1 })

/-- Model of `re.search` for a greedy brace-delimited span (DOTALL): the
span from the first `\x7b` to the last `\x7d` when the first precedes the
last, else no match. -/
def searchBraced (s : String) : Option String :=
  let cs := s.toList
  match cs.findIdx? (fun c => c == '\x7b') with
  | none => none
  | some i =>
    match cs.reverse.findIdx? (fun c => c == '\x7d') with
    | none => none
    | some jr =>
      let j := cs.length - 1 - jr
      if i ≤ j then some (String.mk ((cs.drop i).take (j - i + 1)))
      else none

/-- Model of `re.search(r'\[[\s\S]*\]', ...)`: the span from the first `[`
to the last `]` when the first precedes the last. -/
def searchBracket (s : String) : Option String :=
  let cs := s.toList
  match cs.findIdx? (fun c => c == '[') with
  | none => none
  | some i =>
    match cs.reverse.findIdx? (fun c => c == ']') with
    | none => none
    | some jr =>
      let j := cs.length - 1 - jr
      if i ≤ j then some (String.mk ((cs.drop i).take (j - i + 1)))
      else none

/-- Python `text.strip().replace('\n', ' ')` of
`_ask_llm_to_summarize_error`. -/
def stripAndJoin (s : String) : String :=
  String.mk ((pyStrip s).toList.map (fun c => if c == '\n' then ' ' else c))

/-- Try-body of `_ask_llm_for_root_cause` (lines 534-541): call the
client, extract the braced payload (no payload prints an error and
returns `{}`), and `json.loads` it (`parse`; `none` models
`JSONDecodeError`). -/
def rcTryBody (resp : LLMResp)
    (parse : String → Option (List (String × String))) (st : LLMState) :
    Except PyExc (List (String × String)) × LLMState :=
  match generateContent resp st with
  | (Except.error e, st₁) => (Except.error e, st₁)
  | (Except.ok text, st₁) =>
    match searchBraced text with
    | none => (Except.ok [], st₁)
    | some jt =>
      match parse jt with
      | some d => (Except.ok d, st₁)
      | none => (Except.error PyExc.jsonDecodeError, st₁)

/-- Embedding of `_ask_llm_for_root_cause`: the unavailable short-circuit,
the try body, then the except cascade clause by clause — quota exhaustion
trips the breaker and returns `{}`, `JSONDecodeError` returns `{}`, the
final `except Exception` returns `{}`; anything outside `Exception` would
propagate. -/
def askRootCause (resp : LLMResp)
    (parse : String → Option (List (String × String))) (st : LLMState) :
    Except PyExc (List (String × String) × LLMState) :=
  if !st.available then Except.ok ([], st)
  else
    match rcTryBody resp parse st with
    | (Except.ok d, st₁) => Except.ok (d, st₁)
    | (Except.error e, st₁) =>
      match e with
      | PyExc.fromLLM LLMExc.resourceExhausted =>
        Except.ok ([], { st₁ with available := false })
      | PyExc.jsonDecodeError => Except.ok ([], st₁)
      | e =>
        if e.isExceptionClass then Except.ok ([], st₁)
        else Except.error e

/-- Try-body of `_ask_llm_for_version_candidates` (lines 562-569): call
the client, extract the bracketed payload (none prints an error and
returns `[]`), and `ast.literal_eval` it (`parse`; `none` models
`ValueError`/`SyntaxError`). -/
def candTryBody (resp : LLMResp) (parse : String → Option (List String))
    (st : LLMState) : Except PyExc (List String) × LLMState :=
  match generateContent resp st with
  | (Except.error e, st₁) => (Except.error e, st₁)
  | (Except.ok text, st₁) =>
    match searchBracket text with
    | none => (Except.ok [], st₁)
    | some lt =>
      match parse lt with
      | some l => (Except.ok l, st₁)
      | none => (Except.error PyExc.valueOrSyntaxError, st₁)

/-- Embedding of `_ask_llm_for_version_candidates` with its except
cascade: quota trips the breaker, `(ValueError, SyntaxError)` and
`except Exception` degrade to `[]`. -/
def askVersionCandidates (resp : LLMResp)
    (parse : String → Option (List String)) (st : LLMState) :
    Except PyExc (List String × LLMState) :=
  if !st.available then Except.ok ([], st)
  else
    match candTryBody resp parse st with
    | (Except.ok l, st₁) => Except.ok (l, st₁)
    | (Except.error e, st₁) =>
      match e with
      | PyExc.fromLLM LLMExc.resourceExhausted =>
        Except.ok ([], { st₁ with available := false })
      | PyExc.valueOrSyntaxError => Except.ok ([], st₁)
      | e =>
        if e.isExceptionClass then Except.ok ([], st₁)
        else Except.error e

/-- Embedding of `_ask_llm_to_summarize_error`: unavailable
short-circuit, one client call, quota trips the breaker, any other
`Exception` degrades to an error text. -/
def askSummarizeError (resp : LLMResp) (st : LLMState) :
    Except PyExc (String × LLMState) :=
  if !st.available then Except.ok (("(LLM unavailable)"), st)
  else
    match generateContent resp st with
    | (Except.ok text, st₁) => Except.ok (stripAndJoin text, st₁)
    | (Except.error e, st₁) =>
      match e with
      | PyExc.fromLLM LLMExc.resourceExhausted =>
        Except.ok (("(LLM Error: API quota exhausted)"),
          { st₁ with available := false })
      | e =>
        if e.isExceptionClass then Except.ok (("(LLM Error)"), st₁)
        else Except.error e

/-- One invocation of an advisor entry point, as the run makes them. -/
inductive AdvisorCall
  | summarize (resp : LLMResp)
  | rootCause (resp : LLMResp)
      (parse : String → Option (List (String × String)))
  | versionCandidates (resp : LLMResp)
      (parse : String → Option (List String))

/-- State transition of one advisor entry-point invocation. -/
def stepAdvisor (c : AdvisorCall) (st : LLMState) : LLMState :=
  match c with
  | AdvisorCall.summarize resp =>
    match askSummarizeError resp st with
    | Except.ok (_, st') => st'
    | Except.error _ => st
  | AdvisorCall.rootCause resp parse =>
    match askRootCause resp parse st with
    | Except.ok (_, st') => st'
    | Except.error _ => st
  | AdvisorCall.versionCandidates resp parse =>
    match askVersionCandidates resp parse st with
    | Except.ok (_, st') => st'
    | Except.error _ => st

/-- A sequence of advisor entry-point invocations. -/
def runAdvisor : List AdvisorCall → LLMState → LLMState
  | [], st => st
  | c :: rest, st => runAdvisor rest (stepAdvisor c st)

/-- Oracle for the bootstrap-heal loop's externals: the client response of
each attempt, the `json.loads` of the extracted payload (returning the
`changes` list; `none` models extraction/decode exceptions), the
rebuild-and-validate outcome per attempt, and the healed package list of a
successful attempt. -/
structure HealEnv where
  resp : Nat → LLMResp
  parse : String → Option (List (String × String))
  probeOk : Nat → Bool
  healPackages : Nat → List String

/-- Embedding of the loop of `_attempt_llm_bootstrap_heal`
(lines 150-198): `for attempt in range(MAX)` — the first argument is the
remaining attempt budget, the second the attempt index.  EVERY iteration
calls `generate_content` without consulting `llm_available`, and its
`except Exception: continue` clause catches `ResourceExhausted` without
tripping the breaker. -/
def bootstrapHealLoop (env : HealEnv) :
    Nat → Nat → LLMState → Option (List String) × LLMState
  | 0, _, st => (none, st)
  | remaining + 1, i, st =>
    match generateContent (env.resp i) st with
    | (Except.error _, st₁) => bootstrapHealLoop env remaining (i + 1) st₁
    | (Except.ok text, st₁) =>
      match searchBraced text with
      | none => bootstrapHealLoop env remaining (i + 1) st₁
      | some jt =>
        match env.parse jt with
        | none => bootstrapHealLoop env remaining (i + 1) st₁
        | some [] => bootstrapHealLoop env remaining (i + 1) st₁
        | some (_ :: _) =>
          if env.probeOk i then (some (env.healPackages i), st₁)
          else bootstrapHealLoop env remaining (i + 1) st₁

/-- C5 counterexample environment: the client raises `ResourceExhausted`
at every call. -/
def quotaHealEnv : HealEnv where
  resp := fun _ => LLMResp.raise LLMExc.resourceExhausted
  parse := fun _ => none
  probeOk := fun _ => false
  healPackages := fun _ => []

/-! # Theorems -/

/-- Helper: `_get_requirements_state` always proceeds; it has no exit
statement. -/
theorem getRequirementsState_proceed (file : Option (List String)) :
    ∃ b ls, getRequirementsState file = ReqReadResult.proceed b ls := by
  cases file <;> exact ⟨_, _, rfl⟩

/-- C7 counterexample: with the ledger file absent, `_get_requirements_state`
returns `(False, [])` (treating the ledger as unpinned) and `run()` proceeds
into bootstrap; there is no distinct fatal process exit, contradicting the
claim that an absent ledger terminates the process fatally. -/
theorem ledger_missing_counterexample :
    getRequirementsState none = ReqReadResult.proceed false []
    ∧ runStartAction none = RunStartAction.bootstrapFirst
    ∧ runStartAction none ≠ RunStartAction.fatalStop :=
  ⟨rfl, rfl, by decide⟩

/-- C7 amended: reading the requirements ledger never takes a fatal-exit
path — an absent ledger yields the unpinned state `(False, [])` and the run
continues into bootstrap. -/
theorem ledger_missing_not_fatal :
    (∀ file, getRequirementsState file ≠ ReqReadResult.fatalExit)
    ∧ (∀ file, runStartAction file ≠ RunStartAction.fatalStop)
    ∧ runStartAction none = RunStartAction.bootstrapFirst := by
  refine ⟨?_, ?_, rfl⟩ <;> intro file <;>
    obtain ⟨b, ls, h⟩ := getRequirementsState_proceed file
  · simp [h]
  · rw [runStartAction, h]
    cases b <;> simp

/-- C6 counterexample: `"Foo_Bar"` and `"foo-bar"` do NOT resolve to the
same identity anywhere: the name extractor returns them verbatim (distinct),
the risk-score key normalisation folds only underscores (not case) so the
keys stay distinct, and requirement-line matching distinguishes them (a
probe of `foo-bar` leaves the line `Foo_Bar==1.0` untouched while a probe of
`Foo_Bar` rewrites it). -/
theorem name_canonicalization_counterexample :
    getPackageNameFromSpec ("Foo_Bar") ≠ getPackageNameFromSpec ("foo-bar")
    ∧ underscoreToHyphen ("Foo_Bar") ≠ underscoreToHyphen ("foo-bar")
    ∧ buildRequirementsList ("foo-bar") ("2.0") [("Foo_Bar==1.0")] []
        ≠ buildRequirementsList ("Foo_Bar") ("2.0") [("Foo_Bar==1.0")] [] := by
  decide

/-- C6 amended: package names are compared verbatim as extracted by
`_get_package_name_from_spec` (case- and separator-sensitive); the only
normalisation in the code is the underscore→hyphen fold on usage-score
dictionary keys, which preserves case.  Hence same-case separator variants
coincide only as score keys, and `"Foo_Bar"`/`"foo-bar"` are distinct
identities for both scoring and requirement-line matching. -/
theorem name_matching_verbatim :
    getPackageNameFromSpec ("Foo_Bar==1.0") = some ("Foo_Bar")
    ∧ getPackageNameFromSpec ("foo-bar==1.0") = some ("foo-bar")
    ∧ underscoreToHyphen ("foo_bar") = ("foo-bar")
    ∧ underscoreToHyphen ("Foo_Bar") = ("Foo-Bar")
    ∧ ("Foo-Bar" : String) ≠ ("foo-bar")
    ∧ buildRequirementsList ("foo-bar") ("2.0") [("Foo_Bar==1.0")] []
        = [("Foo_Bar==1.0")]
    ∧ buildRequirementsList ("foo_bar") ("2.0") [("foo-bar==1.0")] []
        = [("foo-bar==1.0")] := by
  decide

/-- C10: in the install request built by `_try_install_and_validate`, a
dynamic constraint naming the probed package itself is omitted from the
appended constraint section, while every other active constraint is
included in the request. -/
theorem constraint_same_package_excluded (pkg newVer : String)
    (fileLines constraints : List String) (c : String) (hc : c ∈ constraints) :
    (getPackageNameFromSpec c = some pkg →
      c ∉ (buildRequirementsList pkg newVer fileLines constraints).drop
        fileLines.length)
    ∧ (getPackageNameFromSpec c ≠ some pkg →
      c ∈ buildRequirementsList pkg newVer fileLines constraints) := by
  constructor
  · intro h hmem
    have hdrop : (buildRequirementsList pkg newVer fileLines constraints).drop
        fileLines.length
        = constraints.filter
            (fun x => !(getPackageNameFromSpec x == some pkg)) := by
      unfold buildRequirementsList
      rw [show fileLines.length
          = (List.map (fun l =>
              if getPackageNameFromSpec l = some pkg then
                pkg ++ ("==") ++ newVer
              else l) fileLines).length from (List.length_map _ _).symm]
      exact List.drop_left _ _
    rw [hdrop] at hmem
    rcases List.mem_filter.mp hmem with ⟨-, hkeep⟩
    simp [h] at hkeep
  · intro h
    exact List.mem_append_right _
      (List.mem_filter.mpr ⟨hc, by simp [h]⟩)

/-- C10 witness at a concrete input: constraint `b<2` is kept when probing
package `a`. -/
theorem constraint_same_package_excluded_witness :
    (("b<2") ∈ [("b<2")])
    ∧ ((getPackageNameFromSpec ("b<2") = some ("a") →
        ("b<2") ∉ (buildRequirementsList ("a") ("2.0") [("a==1.0")]
          [("b<2")]).drop ([("a==1.0")] : List String).length)
      ∧ (getPackageNameFromSpec ("b<2") ≠ some ("a") →
        ("b<2") ∈ buildRequirementsList ("a") ("2.0") [("a==1.0")] [("b<2")])) :=
  ⟨by decide, constraint_same_package_excluded ("a") ("2.0") [("a==1.0")]
    [("b<2")] ("b<2") (by decide)⟩

/-- C2: the update-risk score equals the spec formula
`u·5 + p·3 + s·2` with the spec's severity (3 major / 2 minor / 1 patch or
unparsable); on the worked example numpy scores 19, pandas scores 9, and
the descending risk sort places numpy before pandas from either initial
order. -/
theorem risk_formula_and_plan_order :
    (∀ cur tgt, severityOfUpdate cur tgt = severitySpec cur tgt)
    ∧ (∀ (table : List (String × Nat)) (primary : List String) pkg cur tgt
        (u : Nat) (p : Bool),
        (table.lookup pkg).getD 0 = u → decide (pkg ∈ primary) = p →
        calculateUpdateRisk table primary pkg cur tgt
          = riskSpec u p (severitySpec cur tgt))
    ∧ calculateUpdateRisk exampleUsageScores examplePrimary ("numpy")
        (some ⟨1, 24, 0⟩) (some ⟨2, 0, 0⟩) = 19
    ∧ calculateUpdateRisk exampleUsageScores examplePrimary ("pandas")
        (some ⟨2, 0, 0⟩) (some ⟨2, 1, 0⟩) = 9
    ∧ sortPlanByRisk exampleUsageScores examplePrimary [numpyItem, pandasItem]
        = [numpyItem, pandasItem]
    ∧ sortPlanByRisk exampleUsageScores examplePrimary [pandasItem, numpyItem]
        = [numpyItem, pandasItem] := by
  have hsev : ∀ cur tgt, severityOfUpdate cur tgt = severitySpec cur tgt := by
    intro cur tgt
    cases cur <;> cases tgt <;> rfl
  have hformula : ∀ (table : List (String × Nat)) (primary : List String)
      pkg cur tgt (u : Nat) (p : Bool),
      (table.lookup pkg).getD 0 = u → decide (pkg ∈ primary) = p →
      calculateUpdateRisk table primary pkg cur tgt
        = riskSpec u p (severitySpec cur tgt) := by
    intro table primary pkg cur tgt u p hu hp
    subst hu
    unfold calculateUpdateRisk riskSpec
    rw [hsev]
    cases p with
    | true =>
      have hmem : pkg ∈ primary := of_decide_eq_true hp
      simp [hmem]
    | false =>
      have hmem : pkg ∉ primary := of_decide_eq_false hp
      simp [hmem]
  have hnumpy : calculateUpdateRisk exampleUsageScores examplePrimary
      ("numpy") (some ⟨1, 24, 0⟩) (some ⟨2, 0, 0⟩) = 19 := by
    norm_num [calculateUpdateRisk, severityOfUpdate, exampleUsageScores,
      examplePrimary, List.lookup]
  have hpandas : calculateUpdateRisk exampleUsageScores examplePrimary
      ("pandas") (some ⟨2, 0, 0⟩) (some ⟨2, 1, 0⟩) = 9 := by
    rw [hformula exampleUsageScores examplePrimary ("pandas") _ _ 1 false
      (by decide) (by decide)]
    norm_num [riskSpec, severitySpec]
  refine ⟨hsev, hformula, hnumpy, hpandas, ?_, ?_⟩
  · simp only [sortPlanByRisk, List.insertionSort, List.orderedInsert,
      numpyItem, pandasItem]
    rw [if_pos]
    have h9 : calculateUpdateRisk exampleUsageScores examplePrimary
        ("pandas") (some ⟨2, 0, 0⟩) (some ⟨2, 1, 0⟩)
        ≤ calculateUpdateRisk exampleUsageScores examplePrimary ("numpy")
        (some ⟨1, 24, 0⟩) (some ⟨2, 0, 0⟩) := by
      rw [hnumpy, hpandas]; norm_num
    exact h9
  · simp only [sortPlanByRisk, List.insertionSort, List.orderedInsert,
      numpyItem, pandasItem]
    rw [if_neg]
    have h9 : ¬ (calculateUpdateRisk exampleUsageScores examplePrimary
        ("numpy") (some ⟨1, 24, 0⟩) (some ⟨2, 0, 0⟩)
        ≤ calculateUpdateRisk exampleUsageScores examplePrimary ("pandas")
        (some ⟨2, 0, 0⟩) (some ⟨2, 1, 0⟩)) := by
      rw [hnumpy, hpandas]; norm_num
    exact h9

/-- C2 witness: the formula part of the risk theorem applied at the numpy
worked-example input. -/
theorem risk_formula_witness :
    ((exampleUsageScores.lookup ("numpy")).getD 0 = 2)
    ∧ (decide (("numpy") ∈ examplePrimary) = true)
    ∧ calculateUpdateRisk exampleUsageScores examplePrimary ("numpy")
        (some ⟨1, 24, 0⟩) (some ⟨2, 0, 0⟩)
      = riskSpec 2 true (severitySpec (some ⟨1, 24, 0⟩) (some ⟨2, 0, 0⟩)) :=
  ⟨by decide, by decide,
    risk_formula_and_plan_order.2.1 exampleUsageScores examplePrimary
      ("numpy") (some ⟨1, 24, 0⟩) (some ⟨2, 0, 0⟩) 2 true (by decide) (by decide)⟩

/-- Candidate lists from `get_all_versions_between` are strictly ascending:
the code deduplicates (a Python set) and sorts by version precedence. -/
theorem getAllVersionsBetween_sorted (registry : List Nat)
    (isPre : Nat → Bool) (startV endV : Nat) :
    List.Sorted (· < ·) (getAllVersionsBetween registry isPre startV endV) := by
  have hperm := List.perm_insertionSort (· ≤ ·)
    ((registry.filter (fun v =>
      decide (startV ≤ v) && decide (v < endV) && !(isPre v))).dedup)
  have hnd : (getAllVersionsBetween registry isPre startV endV).Nodup :=
    hperm.symm.nodup (List.nodup_dedup _)
  have hs : List.Sorted (· ≤ ·)
      (getAllVersionsBetween registry isPre startV endV) :=
    List.sorted_insertionSort _ _
  exact hs.lt_of_le hnd

/-- In a strictly sorted list, being below a value threshold is an index
prefix: the element at index `i` is below `T` exactly when `i` is below the
count of elements below `T`. -/
theorem sorted_getD_lt_threshold (T d : Nat) :
    ∀ vs : List Nat, List.Sorted (· < ·) vs →
      ∀ i, i < vs.length →
        (vs.getD i d < T ↔ i < vs.countP (fun v => decide (v < T))) := by
  intro vs
  induction vs with
  | nil => intro _ i hi; simp at hi
  | cons x xs ih =>
    intro hs i hi
    obtain ⟨hx, hxs⟩ := List.sorted_cons.mp hs
    cases i with
    | zero =>
      simp only [List.getD_cons_zero, List.countP_cons]
      by_cases hxT : x < T
      · simp [hxT]
      · have hall : xs.countP (fun v => decide (v < T)) = 0 := by
          rw [List.countP_eq_zero]
          intro a ha
          have := hx a ha
          simp only [decide_eq_true_eq]
          omega
        simp [hxT, hall]
    | succ j =>
      have hj : j < xs.length := by
        simp only [List.length_cons] at hi
        omega
      simp only [List.getD_cons_succ, List.countP_cons]
      by_cases hxT : x < T
      · rw [ih hxs j hj]
        simp [hxT]
      · have hall : xs.countP (fun v => decide (v < T)) = 0 := by
          rw [List.countP_eq_zero]
          intro a ha
          have := hx a ha
          simp only [decide_eq_true_eq]
          omega
        have hmem : xs.getD j d ∈ xs := by
          rw [List.getD_eq_getElem xs d hj]
          exact List.getElem_mem hj
        have hnlt : ¬ xs.getD j d < T := by
          have := hx _ hmem
          omega
        have hif : (if (fun v => decide (v < T)) x = true then 1 else 0)
            = 0 := by
          simp [hxT]
        rw [hall, hif]
        exact ⟨fun h => absurd h hnlt, fun h => absurd h (by omega)⟩

/-- Loop invariant of the binary-search loop under an index-threshold
probe: with exactly the indices below `K` passing, the loop returns the
element at index `K - 1` (or `none` when `K = 0`). -/
theorem bsLoopF_threshold {probe : Nat → Bool} {vs : List Nat} {dflt : Nat}
    {K : Nat}
    (hK : ∀ i, i < vs.length → (probe (vs.getD i dflt) = true ↔ i < K)) :
    ∀ (fuel : Nat) (low high : Int) (best : Option Nat),
      0 ≤ low → high < (vs.length : Int) →
      low ≤ (K : Int) → (K : Int) ≤ high + 1 →
      ((low = 0 ∧ best = none) ∨
        (0 < low ∧ best = some (vs.getD (low - 1).toNat dflt))) →
      (high + 1 - low).toNat ≤ fuel →
      (bsLoopF probe vs dflt fuel low high best).1
        = if K = 0 then none else some (vs.getD (K - 1) dflt) := by
  intro fuel
  induction fuel with
  | zero =>
    intro low high best h0 hh hlK hKh hbest hfl
    simp only [bsLoopF]
    rcases hbest with ⟨hl0, hb⟩ | ⟨hlpos, hb⟩
    · have hK0 : K = 0 := by omega
      simp [hK0, hb]
    · have hKpos : K ≠ 0 := by omega
      have hidx : (low - 1).toNat = K - 1 := by omega
      rw [hb, hidx]
      simp [hKpos]
  | succ fuel ih =>
    intro low high best h0 hh hlK hKh hbest hfl
    by_cases hlh : low ≤ high
    · simp only [bsLoopF, if_pos hlh]
      have hmlow : low ≤ (low + high) / 2 := by omega
      have hmhigh : (low + high) / 2 ≤ high := by omega
      have hmidlt : ((low + high) / 2).toNat < vs.length := by omega
      have hprobe := hK ((low + high) / 2).toNat hmidlt
      by_cases hpv : probe (vs.getD ((low + high) / 2).toNat dflt) = true
      · rw [if_pos hpv]
        have hmidK : ((low + high) / 2).toNat < K := hprobe.mp hpv
        exact ih ((low + high) / 2 + 1) high
          (some (vs.getD ((low + high) / 2).toNat dflt))
          (by omega) hh (by omega) hKh
          (Or.inr ⟨by omega, by
            rw [show ((low + high) / 2 + 1 - 1 : Int) = (low + high) / 2 by
              ring]⟩)
          (by omega)
      · rw [if_neg hpv]
        have hKmid : ¬ ((low + high) / 2).toNat < K := fun hc => hpv
          (hprobe.mpr hc)
        exact ih low ((low + high) / 2 - 1) best
          h0 (by omega) hlK (by omega) hbest (by omega)
    · simp only [bsLoopF, if_neg hlh]
      rcases hbest with ⟨hl0, hb⟩ | ⟨hlpos, hb⟩
      · have hK0 : K = 0 := by omega
        simp [hK0, hb]
      · have hKpos : K ≠ 0 := by omega
        have hidx : (low - 1).toNat = K - 1 := by omega
        rw [hb, hidx]
        simp [hKpos]

/-- The loop probes at most `m` versions when the initial window size is
below `2 ^ m`: each iteration at least halves the window. -/
theorem bsLoopF_probe_count {α : Type} (probe : α → Bool) (vs : List α)
    (dflt : α) :
    ∀ (m fuel : Nat) (low high : Int) (best : Option α),
      (high + 1 - low).toNat < 2 ^ m →
      (bsLoopF probe vs dflt fuel low high best).2.length ≤ m := by
  intro m
  induction m with
  | zero =>
    intro fuel low high best hw
    have hlh : ¬ low ≤ high := by
      simp only [pow_zero] at hw
      omega
    cases fuel with
    | zero => simp [bsLoopF]
    | succ fuel => simp [bsLoopF, if_neg hlh]
  | succ m ih =>
    intro fuel low high best hw
    cases fuel with
    | zero => simp [bsLoopF]
    | succ fuel =>
      by_cases hlh : low ≤ high
      · have h2 : (2 : Nat) ^ (m + 1) = 2 * 2 ^ m := by
          rw [pow_succ]; ring
        simp only [bsLoopF, if_pos hlh]
        by_cases hpv : probe (vs.getD (((low + high) / 2).toNat) dflt) = true
        · rw [if_pos hpv]
          simp only [List.length_cons]
          have hrec := ih fuel ((low + high) / 2 + 1) high
            (some (vs.getD (((low + high) / 2).toNat) dflt)) (by omega)
          omega
        · rw [if_neg hpv]
          simp only [List.length_cons]
          have hrec := ih fuel low ((low + high) / 2 - 1) best (by omega)
          omega
      · simp [bsLoopF, if_neg hlh]

/-- Any version the loop returns as best was either the initial best or
was probed by the loop and passed. -/
theorem bsLoopF_result_mem {α : Type} (probe : α → Bool) (vs : List α)
    (dflt : α) :
    ∀ (fuel : Nat) (low high : Int) (best : Option α) (v : α),
      (bsLoopF probe vs dflt fuel low high best).1 = some v →
      best = some v ∨
        (v ∈ (bsLoopF probe vs dflt fuel low high best).2 ∧
          probe v = true) := by
  intro fuel
  induction fuel with
  | zero =>
    intro low high best v h
    left
    simpa [bsLoopF] using h
  | succ fuel ih =>
    intro low high best v h
    by_cases hlh : low ≤ high
    · simp only [bsLoopF, if_pos hlh] at h ⊢
      by_cases hpv : probe (vs.getD (((low + high) / 2).toNat) dflt) = true
      · rw [if_pos hpv] at h ⊢
        rcases ih _ _ _ _ h with heq | ⟨hm, hpr⟩
        · have hv : vs.getD (((low + high) / 2).toNat) dflt = v :=
            Option.some.inj heq
          right
          refine ⟨?_, hv ▸ hpv⟩
          rw [← hv]
          exact List.mem_cons_self _ _
        · right
          exact ⟨List.mem_cons_of_mem _ hm, hpr⟩
      · rw [if_neg hpv] at h ⊢
        rcases ih _ _ _ _ h with heq | ⟨hm, hpr⟩
        · left; exact heq
        · right
          exact ⟨List.mem_cons_of_mem _ hm, hpr⟩
    · simp only [bsLoopF, if_neg hlh] at h
      left; exact h

/-- Any version `_binary_search_backtrack` returns was probed and passed
its probe (covers both the empty-window fallback and the loop). -/
theorem binarySearchBacktrack_result_mem {α : Type} (probe : α → Bool)
    (lastGood : α) (versions : List α) (v : α)
    (h : (binarySearchBacktrack probe lastGood versions).1 = some v) :
    v ∈ (binarySearchBacktrack probe lastGood versions).2 ∧
      probe v = true := by
  unfold binarySearchBacktrack at h ⊢
  by_cases he : versions.isEmpty
  · rw [if_pos he] at h ⊢
    by_cases hp : probe lastGood
    · rw [if_pos hp] at h ⊢
      have hv : lastGood = v := Option.some.inj h
      subst hv
      exact ⟨List.mem_cons_self _ _, hp⟩
    · rw [if_neg hp] at h ⊢
      rcases bsLoopF_result_mem probe versions lastGood _ _ _ _ _ h with
        heq | ⟨hm, hpr⟩
      · exact absurd heq (by simp)
      · exact ⟨List.mem_cons_of_mem _ hm, hpr⟩
  · rw [if_neg he] at h ⊢
    rcases bsLoopF_result_mem probe versions lastGood _ _ _ _ _ h with
      heq | ⟨hm, hpr⟩
    · exact absurd heq (by simp)
    · exact ⟨hm, hpr⟩

/-- C1: on any non-empty candidate list returned by
`get_all_versions_between`, if probe outcomes are monotonic in version
order (success exactly below a threshold `T`), `_binary_search_backtrack`
returns the greatest passing candidate — or `none` when every candidate
fails — and performs at most `Nat.size n = ⌊log₂ n⌋ + 1` probes for `n`
candidates. -/
theorem binary_search_monotonic (registry : List Nat) (isPre : Nat → Bool)
    (startV endV T lastGood : Nat) (probe : Nat → Bool)
    (hne : getAllVersionsBetween registry isPre startV endV ≠ [])
    (hp : ∀ v ∈ getAllVersionsBetween registry isPre startV endV,
      probe v = decide (v < T)) :
    ((binarySearchBacktrack probe lastGood
        (getAllVersionsBetween registry isPre startV endV)).1 = none →
      ∀ v ∈ getAllVersionsBetween registry isPre startV endV,
        probe v = false)
    ∧ (∀ r, (binarySearchBacktrack probe lastGood
        (getAllVersionsBetween registry isPre startV endV)).1 = some r →
      r ∈ getAllVersionsBetween registry isPre startV endV ∧
        probe r = true ∧
        ∀ v ∈ getAllVersionsBetween registry isPre startV endV,
          probe v = true → v ≤ r)
    ∧ (binarySearchBacktrack probe lastGood
        (getAllVersionsBetween registry isPre startV endV)).2.length
      ≤ Nat.size (getAllVersionsBetween registry isPre startV endV).length := by
  set vs := getAllVersionsBetween registry isPre startV endV with hvs
  have hsorted : List.Sorted (· < ·) vs :=
    getAllVersionsBetween_sorted registry isPre startV endV
  set K := vs.countP (fun v => decide (v < T)) with hKdef
  have hK : ∀ i, i < vs.length →
      (probe (vs.getD i lastGood) = true ↔ i < K) := by
    intro i hi
    have hmem : vs.getD i lastGood ∈ vs := by
      rw [List.getD_eq_getElem vs lastGood hi]
      exact List.getElem_mem hi
    rw [hp _ hmem]
    simp only [decide_eq_true_eq]
    exact sorted_getD_lt_threshold T lastGood vs hsorted i hi
  have hKlen : K ≤ vs.length := List.countP_le_length _
  have hbs : binarySearchBacktrack probe lastGood vs
      = bsLoop probe vs lastGood 0 ((vs.length : Int) - 1) none := by
    unfold binarySearchBacktrack
    rw [if_neg]
    simp only [List.isEmpty_iff]
    exact hne
  have hres : (binarySearchBacktrack probe lastGood vs).1
      = if K = 0 then none else some (vs.getD (K - 1) lastGood) := by
    rw [hbs]
    unfold bsLoop
    exact bsLoopF_threshold hK _ 0 ((vs.length : Int) - 1) none
      (by omega) (by omega) (by omega) (by omega)
      (Or.inl ⟨rfl, rfl⟩) (by omega)
  refine ⟨?_, ?_, ?_⟩
  · intro h v hv
    rw [hres] at h
    have hK0 : K = 0 := by
      by_contra h'
      simp [h'] at h
    obtain ⟨i, hi, hgi⟩ := List.mem_iff_getElem.mp hv
    have hgd : vs.getD i lastGood = v := by
      rw [List.getD_eq_getElem vs lastGood hi, hgi]
    have := hK i hi
    rw [hgd, hK0] at this
    simp only [Nat.not_lt_zero, iff_false] at this
    exact Bool.not_eq_true _ ▸ (Bool.eq_false_iff.mpr (by
      intro hc
      exact this hc))
  · intro r hr
    rw [hres] at hr
    have hKpos : K ≠ 0 := by
      intro h0
      rw [h0] at hr
      simp at hr
    have hrval : vs.getD (K - 1) lastGood = r := by
      rw [if_neg hKpos] at hr
      exact Option.some.inj hr
    have hK1len : K - 1 < vs.length := by omega
    refine ⟨?_, ?_, ?_⟩
    · rw [← hrval, List.getD_eq_getElem vs lastGood hK1len]
      exact List.getElem_mem hK1len
    · rw [← hrval]
      exact (hK (K - 1) hK1len).mpr (by omega)
    · intro v hv hpv
      obtain ⟨i, hi, hgi⟩ := List.mem_iff_getElem.mp hv
      have hgd : vs.getD i lastGood = v := by
        rw [List.getD_eq_getElem vs lastGood hi, hgi]
      have hiK : i < K := (hK i hi).mp (by rw [hgd]; exact hpv)
      rcases Nat.lt_or_ge i (K - 1) with hlt | hge
      · have hmono := hsorted.get_strictMono
          (show (⟨i, hi⟩ : Fin vs.length) < ⟨K - 1, hK1len⟩ from hlt)
        simp only [List.get_eq_getElem] at hmono
        have hKr : vs[K - 1] = r := by
          rw [← hrval, List.getD_eq_getElem vs lastGood hK1len]
        rw [hgi, hKr] at hmono
        exact le_of_lt hmono
      · have hieq : i = K - 1 := by omega
        subst hieq
        have hvr : v = r := by
          rw [← hgi, ← hrval, List.getD_eq_getElem vs lastGood hK1len]
        exact hvr.le
  · rw [hbs]
    unfold bsLoop
    exact bsLoopF_probe_count probe vs lastGood (Nat.size vs.length) _ 0
      ((vs.length : Int) - 1) none (by
        have := Nat.lt_size_self vs.length
        omega)

/-- C1 witness: registry `[1,2,3,4,5]`, window `[1,6)`, threshold `T = 4`:
the search returns the greatest passing version 3 within 3 probes. -/
theorem binary_search_monotonic_witness :
    (getAllVersionsBetween [1, 2, 3, 4, 5] (fun _ => false) 1 6 ≠ [])
    ∧ (∀ v ∈ getAllVersionsBetween [1, 2, 3, 4, 5] (fun _ => false) 1 6,
        (fun v => decide (v < 4)) v = decide (v < 4))
    ∧ (((binarySearchBacktrack (fun v => decide (v < 4)) 1
          (getAllVersionsBetween [1, 2, 3, 4, 5] (fun _ => false) 1 6)).1
            = none →
        ∀ v ∈ getAllVersionsBetween [1, 2, 3, 4, 5] (fun _ => false) 1 6,
          (fun v => decide (v < 4)) v = false)
      ∧ (∀ r, (binarySearchBacktrack (fun v => decide (v < 4)) 1
          (getAllVersionsBetween [1, 2, 3, 4, 5] (fun _ => false) 1 6)).1
            = some r →
        r ∈ getAllVersionsBetween [1, 2, 3, 4, 5] (fun _ => false) 1 6 ∧
          (fun v => decide (v < 4)) r = true ∧
          ∀ v ∈ getAllVersionsBetween [1, 2, 3, 4, 5] (fun _ => false) 1 6,
            (fun v => decide (v < 4)) v = true → v ≤ r)
      ∧ (binarySearchBacktrack (fun v => decide (v < 4)) 1
          (getAllVersionsBetween [1, 2, 3, 4, 5] (fun _ => false) 1 6)).2.length
        ≤ Nat.size (getAllVersionsBetween [1, 2, 3, 4, 5]
            (fun _ => false) 1 6).length) :=
  ⟨by decide, by decide,
    binary_search_monotonic [1, 2, 3, 4, 5] (fun _ => false) 1 6 4 1
      (fun v => decide (v < 4)) (by decide) (by decide)⟩

/-- C8: when the candidate window is empty, `_binary_search_backtrack`
performs exactly one probe, of `last_good_version` itself, and returns that
version on probe success and `none` on probe failure. -/
theorem binary_search_empty_window (probe : Nat → Bool) (lastGood : Nat)
    (registry : List Nat) (isPre : Nat → Bool) (startV endV : Nat)
    (hempty : getAllVersionsBetween registry isPre startV endV = []) :
    (binarySearchBacktrack probe lastGood
        (getAllVersionsBetween registry isPre startV endV)).2 = [lastGood]
    ∧ (binarySearchBacktrack probe lastGood
        (getAllVersionsBetween registry isPre startV endV)).1
      = if probe lastGood then some lastGood else none := by
  rw [hempty]
  unfold binarySearchBacktrack
  by_cases hp : probe lastGood <;>
    simp [hp, bsLoop, bsLoopF]

/-- C8 witness: a concrete empty window, probing version 7. -/
theorem binary_search_empty_window_witness :
    (getAllVersionsBetween [5] (fun _ => false) 3 4 = [])
    ∧ ((binarySearchBacktrack (fun v => decide (v < 4)) 7
          (getAllVersionsBetween [5] (fun _ => false) 3 4)).2 = [7]
      ∧ (binarySearchBacktrack (fun v => decide (v < 4)) 7
          (getAllVersionsBetween [5] (fun _ => false) 3 4)).1
        = if (fun v => decide (v < 4)) 7 then some 7 else none) :=
  ⟨by decide,
    binary_search_empty_window (fun v => decide (v < 4)) 7 [5]
      (fun _ => false) 3 4 (by decide)⟩

/-- Flags of a successful probe: the probed version is recorded, the
install succeeded, and validation either ran and passed or was skipped by
the no-effective-change rule (`new_version == old_version` with no package
changed this pass). -/
theorem tryInstall_success_flags (env : AttemptEnv) (raw : List String)
    (pkg newVer oldVer : String) (cs : List String) (ch : Bool)
    (h : (tryInstallAndValidate env raw pkg newVer oldVer cs ch).1 = true) :
    (tryInstallAndValidate env raw pkg newVer oldVer cs ch).2.ver = newVer ∧
    (tryInstallAndValidate env raw pkg newVer oldVer cs ch).2.installOk
      = true ∧
    (((tryInstallAndValidate env raw pkg newVer oldVer cs
        ch).2.validationRan = true ∧
      (tryInstallAndValidate env raw pkg newVer oldVer cs
        ch).2.validationOk = true) ∨
      ((tryInstallAndValidate env raw pkg newVer oldVer cs
        ch).2.validationRan = false ∧ newVer = oldVer ∧ ch = false)) := by
  simp only [tryInstallAndValidate] at h ⊢
  by_cases hinst : env.install
      (buildRequirementsList pkg newVer (probeFileLines raw) cs) = true
  · rw [if_neg (by simp [hinst])] at h ⊢
    by_cases hskip : (newVer == oldVer && !ch) = true
    · rw [if_pos hskip] at h ⊢
      rcases (Bool.and_eq_true _ _ ▸ hskip :
        (newVer == oldVer) = true ∧ (!ch) = true) with ⟨hbeq, hnch⟩
      refine ⟨rfl, rfl, Or.inr ⟨rfl, eq_of_beq hbeq, ?_⟩⟩
      cases ch with
      | false => rfl
      | true => simp at hnch
    · rw [if_neg hskip] at h ⊢
      exact ⟨rfl, rfl, Or.inl ⟨rfl, h⟩⟩
  · rw [if_pos (by simp [Bool.not_eq_true] at hinst ⊢; exact hinst)] at h
    simp at h

/-- A list with no write events vacuously satisfies the amended write
predicate. -/
theorem writesValidated_of_no_writes (cur : String) (ch : Bool)
    (evs : List AttemptEv)
    (h : ∀ e ∈ evs, ∃ p, e = AttemptEv.probe p) :
    writesValidatedAmended cur ch evs := by
  intro l₁ pkg ver content l₂ hsplit
  exfalso
  have hmem : AttemptEv.write pkg ver content ∈ evs := by
    rw [hsplit]
    exact List.mem_append_right _ (List.mem_cons_self _ _)
  obtain ⟨p, hp⟩ := h _ hmem
  exact AttemptEv.noConfusion hp

/-- Prepending a probe event preserves the amended write predicate. -/
theorem writesValidated_cons_probe (cur : String) (ch : Bool)
    (p₀ : ProbeEv) (evs : List AttemptEv)
    (h : writesValidatedAmended cur ch evs) :
    writesValidatedAmended cur ch (AttemptEv.probe p₀ :: evs) := by
  intro l₁ pkg ver content l₂ hsplit
  cases l₁ with
  | nil =>
    simp only [List.nil_append, List.cons.injEq] at hsplit
    exact AttemptEv.noConfusion hsplit.1
  | cons e l₁' =>
    simp only [List.cons_append, List.cons.injEq] at hsplit
    obtain ⟨he, hrest⟩ := hsplit
    obtain ⟨p, hmem, hj⟩ := h l₁' pkg ver content l₂ hrest
    exact ⟨p, List.mem_cons_of_mem _ hmem, hj⟩

/-- Concatenation rule for the amended write predicate: writes inside the
left block are justified there; writes inside the right block may use the
whole left block as additional history. -/
theorem writesValidated_append (cur : String) (ch : Bool)
    (a b : List AttemptEv)
    (ha : writesValidatedAmended cur ch a)
    (hb : ∀ l₁ pkg ver content l₂,
      b = l₁ ++ AttemptEv.write pkg ver content :: l₂ →
      WriteJust cur ch (a ++ l₁) ver) :
    writesValidatedAmended cur ch (a ++ b) := by
  intro l₁ pkg ver content l₂ hsplit
  rcases List.append_eq_append_iff.mp hsplit with
    ⟨a', ha1, ha2⟩ | ⟨c', hc1, hc2⟩
  · subst ha1
    exact hb a' pkg ver content l₂ ha2
  · cases c' with
    | nil =>
      simp only [List.append_nil] at hc1
      have hres := hb [] pkg ver content l₂ (by
        simp only [List.nil_append]
        exact hc2.symm)
      rw [List.append_nil] at hres
      rw [hc1] at hres
      exact hres
    | cons e c'' =>
      simp only [List.cons_append, List.cons.injEq] at hc2
      obtain ⟨he, hl2⟩ := hc2
      rw [← he] at hc1
      obtain ⟨p, hmem, hj⟩ := ha l₁ pkg ver content c'' hc1
      exact ⟨p, hmem, hj⟩

/-- A block of probe-only events followed by one write justified by a
probe of the block satisfies the amended predicate. -/
theorem writesValidated_block (cur : String) (ch : Bool)
    (a : List AttemptEv) (pkg ver : String) (content : List String)
    (ha : ∀ e ∈ a, ∃ p, e = AttemptEv.probe p)
    (hj : WriteJust cur ch a ver) :
    writesValidatedAmended cur ch
      (a ++ [AttemptEv.write pkg ver content]) := by
  apply writesValidated_append cur ch a _
    (writesValidated_of_no_writes cur ch a ha)
  intro l₁ pkg' ver' content' l₂ hsplit
  cases l₁ with
  | nil =>
    simp only [List.nil_append, List.cons.injEq] at hsplit
    obtain ⟨hw, -⟩ := hsplit
    have hver : ver = ver' := by injection hw with h1 h2 h3
    rw [List.append_nil]
    exact hver ▸ hj
  | cons e l₁' =>
    simp only [List.cons_append, List.cons.injEq] at hsplit
    obtain ⟨-, habs⟩ := hsplit
    have hlen := congrArg List.length habs
    simp only [List.length_nil, List.length_append, List.length_cons]
      at hlen
    omega

/-- The events of a fully failing candidate loop are probes only. -/
theorem candidatesLoop_none_probes (env : AttemptEnv) (raw : List String)
    (pkg curVer : String) (cs : List String) (ch : Bool) :
    ∀ cands, (candidatesLoop env raw pkg curVer cs ch cands).1 = none →
      ∀ e ∈ (candidatesLoop env raw pkg curVer cs ch cands).2,
        ∃ p, e = AttemptEv.probe p := by
  intro cands
  induction cands with
  | nil =>
    intro _ e he
    simp [candidatesLoop] at he
  | cons c rest ih =>
    intro hnone e he
    simp only [candidatesLoop] at hnone he
    by_cases hle : env.verLE c curVer = true
    · rw [if_pos hle] at hnone he
      exact ih hnone e he
    · rw [if_neg hle] at hnone he
      by_cases hpr : (tryInstallAndValidate env raw pkg c curVer cs
          ch).1 = true
      · rw [if_pos hpr] at hnone
        simp at hnone
      · rw [if_neg hpr] at hnone he
        simp only [List.mem_cons] at he
        rcases he with he | he
        · exact ⟨_, he⟩
        · exact ih hnone e he

/-- Every ledger write of the candidate loop is justified by the
successful probe immediately before it. -/
theorem candidatesLoop_writesValidated (env : AttemptEnv)
    (raw : List String) (pkg curVer : String) (cs : List String)
    (ch : Bool) :
    ∀ cands, writesValidatedAmended curVer ch
      (candidatesLoop env raw pkg curVer cs ch cands).2 := by
  intro cands
  induction cands with
  | nil =>
    apply writesValidated_of_no_writes
    intro e he
    simp [candidatesLoop] at he
  | cons c rest ih =>
    simp only [candidatesLoop]
    by_cases hle : env.verLE c curVer = true
    · rw [if_pos hle]
      exact ih
    · rw [if_neg hle]
      by_cases hpr : (tryInstallAndValidate env raw pkg c curVer cs
          ch).1 = true
      · rw [if_pos hpr]
        have hflags := tryInstall_success_flags env raw pkg c curVer cs ch
          hpr
        have hshow : [AttemptEv.probe
            (tryInstallAndValidate env raw pkg c curVer cs ch).2,
          AttemptEv.write pkg c (env.freeze
            (tryInstallAndValidate env raw pkg c curVer cs ch).2.request)]
          = [AttemptEv.probe
            (tryInstallAndValidate env raw pkg c curVer cs ch).2]
            ++ [AttemptEv.write pkg c (env.freeze
              (tryInstallAndValidate env raw pkg c curVer cs
                ch).2.request)] := rfl
        rw [hshow]
        apply writesValidated_block
        · intro e he
          simp only [List.mem_singleton] at he
          exact ⟨_, he⟩
        · refine ⟨(tryInstallAndValidate env raw pkg c curVer cs ch).2,
            List.mem_cons_self _ _, hflags.1, hflags.2.1, ?_⟩
          rcases hflags.2.2 with hval | ⟨hvr, hveq, hch⟩
          · exact Or.inl hval
          · exact Or.inr ⟨hvr, hveq, hch⟩
      · rw [if_neg hpr]
        exact writesValidated_cons_probe _ _ _ _ ih

/-- All binary-search events are probes. -/
theorem binarySearchEvents_probes (env : AttemptEnv) (raw : List String)
    (pkg curVer : String) (cs : List String) (ch : Bool) :
    ∀ e ∈ (binarySearchEvents env raw pkg curVer cs ch).2,
      ∃ p, e = AttemptEv.probe p := by
  intro e he
  simp only [binarySearchEvents, List.mem_map] at he
  obtain ⟨v, -, hv⟩ := he
  exact ⟨_, hv.symm⟩

/-- A binary-search success was probed (its probe event is in the
binary-search event list) and the probe succeeded. -/
theorem binarySearchEvents_success (env : AttemptEnv) (raw : List String)
    (pkg curVer : String) (cs : List String) (ch : Bool) (v : String)
    (h : (binarySearchEvents env raw pkg curVer cs ch).1 = some v) :
    AttemptEv.probe (bsProbeEv env raw pkg curVer cs ch v)
      ∈ (binarySearchEvents env raw pkg curVer cs ch).2 ∧
    (tryInstallAndValidate env raw pkg v curVer cs ch).1 = true := by
  simp only [binarySearchEvents] at h ⊢
  obtain ⟨hmem, hpr⟩ := binarySearchBacktrack_result_mem _ _ _ _ h
  exact ⟨List.mem_map_of_mem _ hmem, hpr⟩

/-- C4 amended: within one attempt, every requirements-ledger rewrite is
preceded by a successful probe of the finalized version: its installation
succeeded, and its validation either actually ran and passed, or was
skipped precisely because the probed version equals the package's current
(last-good) version while no package had changed in the pass.  The ledger
is never rewritten after a failed installation or a failed validation. -/
theorem attempt_writes_validated (env : AttemptEnv) (raw : List String)
    (pkg curVer targetVer : String) (cs : List String) (ch : Bool) :
    writesValidatedAmended curVer ch
      (attemptUpdateWithHealing env raw pkg curVer targetVer cs ch).2 := by
  simp only [attemptUpdateWithHealing]
  by_cases h1 : (tryInstallAndValidate env raw pkg targetVer curVer cs
      ch).1 = true
  · rw [if_pos h1]
    have hflags := tryInstall_success_flags env raw pkg targetVer curVer cs
      ch h1
    have hshow : [AttemptEv.probe
        (tryInstallAndValidate env raw pkg targetVer curVer cs ch).2,
      AttemptEv.write pkg targetVer (env.freeze
        (tryInstallAndValidate env raw pkg targetVer curVer cs
          ch).2.request)]
      = [AttemptEv.probe
          (tryInstallAndValidate env raw pkg targetVer curVer cs ch).2]
        ++ [AttemptEv.write pkg targetVer (env.freeze
          (tryInstallAndValidate env raw pkg targetVer curVer cs
            ch).2.request)] := rfl
    rw [hshow]
    apply writesValidated_block
    · intro e he
      simp only [List.mem_singleton] at he
      exact ⟨_, he⟩
    · exact ⟨(tryInstallAndValidate env raw pkg targetVer curVer cs ch).2,
        List.mem_cons_self _ _, hflags.1, hflags.2.1, hflags.2.2⟩
  · rw [if_neg h1]
    by_cases h2 : (!(env.rootCause.isEmpty) &&
        !(dictGet env.rootCause ("package") == some pkg)) = true
    · rw [if_pos h2]
      apply writesValidated_of_no_writes
      intro e he
      simp only [List.mem_singleton] at he
      exact ⟨_, he⟩
    · rw [if_neg h2]
      cases hcl : (candidatesLoop env raw pkg curVer cs ch
          env.candidates).1 with
      | some c =>
        simp only [hcl]
        exact writesValidated_cons_probe _ _ _ _
          (candidatesLoop_writesValidated env raw pkg curVer cs ch
            env.candidates)
      | none =>
        simp only [hcl]
        cases hbs : (binarySearchEvents env raw pkg curVer cs ch).1 with
        | some v =>
          simp only [hbs]
          apply writesValidated_cons_probe
          rw [← List.append_assoc]
          obtain ⟨hbmem, hbpr⟩ := binarySearchEvents_success env raw pkg
            curVer cs ch v hbs
          have hbflags := tryInstall_success_flags env raw pkg v curVer cs
            ch hbpr
          apply writesValidated_block
          · intro e he
            rcases List.mem_append.mp he with hm | hm
            · exact candidatesLoop_none_probes env raw pkg curVer cs ch
                env.candidates hcl e hm
            · exact binarySearchEvents_probes env raw pkg curVer cs ch e hm
          · refine ⟨bsProbeEv env raw pkg curVer cs ch v,
              List.mem_append_right _ hbmem, hbflags.1, hbflags.2.1,
              hbflags.2.2⟩
        | none =>
          simp only [hbs]
          apply writesValidated_cons_probe
          apply writesValidated_of_no_writes
          intro e he
          rcases List.mem_append.mp he with hm | hm
          · exact candidatesLoop_none_probes env raw pkg curVer cs ch
              env.candidates hcl e hm
          · exact binarySearchEvents_probes env raw pkg curVer cs ch e hm

/-- C4 witness: the amended predicate at a concrete attempt. -/
theorem attempt_writes_validated_witness :
    writesValidatedAmended ("1.0") false
      (attemptUpdateWithHealing cexEnv [("p==1.0")] ("p") ("1.0") ("2.0")
        [] false).2 :=
  attempt_writes_validated cexEnv [("p==1.0")] ("p") ("1.0") ("2.0") []
    false

/-- C4 counterexample: target `p==2.0` fails to install, the advisor gives
nothing and the candidate window is empty, so the fallback re-probe of the
current version `1.0` runs with the no-effective-change rule, SKIPS
validation, and the attempt still rewrites the requirements ledger — a
write that no probe with `validationRan = true` precedes, contradicting
the claim that the validation oracle was actually run before every
rewrite. -/
theorem ledger_write_without_validation :
    (attemptUpdateWithHealing cexEnv [("p==1.0")] ("p") ("1.0") ("2.0") []
        false).2
      = [AttemptEv.probe ⟨("p"), ("2.0"), [("p==2.0")], false, false, false⟩,
        AttemptEv.probe ⟨("p"), ("1.0"), [("p==1.0")], true, false, false⟩,
        AttemptEv.write ("p") ("1.0") [("p==1.0")]]
    ∧ ¬ writesValidatedStrict
        (attemptUpdateWithHealing cexEnv [("p==1.0")] ("p") ("1.0") ("2.0")
          [] false).2 := by
  have hev : (attemptUpdateWithHealing cexEnv [("p==1.0")] ("p") ("1.0")
      ("2.0") [] false).2
      = [AttemptEv.probe ⟨("p"), ("2.0"), [("p==2.0")], false, false,
          false⟩,
        AttemptEv.probe ⟨("p"), ("1.0"), [("p==1.0")], true, false, false⟩,
        AttemptEv.write ("p") ("1.0") [("p==1.0")]] := by decide
  refine ⟨hev, ?_⟩
  intro h
  obtain ⟨p, hmem, hio, hvr, hvo⟩ := h
    [AttemptEv.probe ⟨("p"), ("2.0"), [("p==2.0")], false, false, false⟩,
      AttemptEv.probe ⟨("p"), ("1.0"), [("p==1.0")], true, false, false⟩]
    ("p") ("1.0") [("p==1.0")] [] (by rw [hev]; rfl)
  simp only [List.mem_cons, List.not_mem_nil, or_false,
    AttemptEv.probe.injEq] at hmem
  rcases hmem with h1 | h1 <;> subst h1 <;> simp at hvr

/-- Every event of one pass is an attempt of that pass, made with the
constraint list the pass started with (constraints change only at the
break, after which the pass records no further events). -/
theorem execItems_evs (env : RunEnv) (pn : Nat) :
    ∀ plan st changed, ∀ e ∈ (execItems env pn plan st changed).evs,
      ∃ c, e = RunEv.attempted c ∧ c.passNum = pn ∧
        c.constraintsAtCall = st.constraints := by
  intro plan
  induction plan with
  | nil =>
    intro st changed e he
    simp [execItems] at he
  | cons item rest ih =>
    intro st changed e he
    cases hs : (env.attempt st.file st.constraints item changed).success
      with
    | true =>
      simp only [execItems, hs, if_true] at he
      simp only [List.mem_cons] at he
      rcases he with he | he
      · exact ⟨_, he, rfl, rfl⟩
      · obtain ⟨c, hc, hp, hcs⟩ := ih _ _ e he
        exact ⟨c, hc, hp, hcs⟩
    | false =>
      cases hl : (env.attempt st.file st.constraints item changed).learned
        with
      | some x =>
        cases hnew : (!(x == ("")) && !(st.constraints.contains x)) with
        | true =>
          simp only [execItems, hs, hl, hnew, Bool.false_eq_true,
            if_false, if_true] at he
          simp only [List.mem_singleton] at he
          exact ⟨_, he, rfl, rfl⟩
        | false =>
          simp only [execItems, hs, hl, hnew, Bool.false_eq_true,
            if_false] at he
          simp only [List.mem_cons] at he
          rcases he with he | he
          · exact ⟨_, he, rfl, rfl⟩
          · obtain ⟨c, hc, hp, hcs⟩ := ih _ _ e he
            exact ⟨c, hc, hp, hcs⟩
      | none =>
        simp only [execItems, hs, hl, Bool.false_eq_true, if_false] at he
        simp only [List.mem_cons] at he
        rcases he with he | he
        · exact ⟨_, he, rfl, rfl⟩
        · obtain ⟨c, hc, hp, hcs⟩ := ih _ _ e he
          exact ⟨c, hc, hp, hcs⟩

/-- A pass only ever appends to the constraint list. -/
theorem execItems_constraints_grow (env : RunEnv) (pn : Nat) :
    ∀ plan st changed,
      st.constraints <+:
        (execItems env pn plan st changed).st.constraints := by
  intro plan
  induction plan with
  | nil =>
    intro st changed
    simp [execItems]
  | cons item rest ih =>
    intro st changed
    cases hs : (env.attempt st.file st.constraints item changed).success
      with
    | true =>
      simp only [execItems, hs, if_true]
      refine List.IsPrefix.trans ?_ (ih _ _)
      exact List.prefix_refl _
    | false =>
      cases hl : (env.attempt st.file st.constraints item changed).learned
        with
      | some x =>
        cases hnew : (!(x == ("")) && !(st.constraints.contains x)) with
        | true =>
          simp only [execItems, hs, hl, hnew, Bool.false_eq_true,
            if_false, if_true]
          exact List.prefix_append _ _
        | false =>
          simp only [execItems, hs, hl, hnew, Bool.false_eq_true,
            if_false]
          refine List.IsPrefix.trans ?_ (ih _ _)
          exact List.prefix_refl _
      | none =>
        simp only [execItems, hs, hl, Bool.false_eq_true, if_false]
        refine List.IsPrefix.trans ?_ (ih _ _)
        exact List.prefix_refl _

/-- When a pass's trace contains a failed attempt whose synthesized
constraint is truthy and not yet active, that attempt is the last event of
the pass, the pass reports a newly learned constraint, and the constraint
list is extended by exactly that constraint. -/
theorem execItems_learned_split (env : RunEnv) (pn : Nat) :
    ∀ plan st changed l₁ c x l₂,
      (execItems env pn plan st changed).evs
        = l₁ ++ RunEv.attempted c :: l₂ →
      c.res.success = false → c.res.learned = some x → x ≠ ("") →
      x ∉ c.constraintsAtCall →
      l₂ = [] ∧ (execItems env pn plan st changed).learnedNew = true ∧
        (execItems env pn plan st changed).st.constraints
          = c.constraintsAtCall ++ [x] := by
  intro plan
  induction plan with
  | nil =>
    intro st changed l₁ c x l₂ hsplit _ _ _ _
    have hlen := congrArg List.length hsplit
    simp only [execItems, List.length_nil, List.length_append,
      List.length_cons] at hlen
    omega
  | cons item rest ih =>
    intro st changed l₁ c x l₂ hsplit hsucc hlearn hne hnotin
    cases hs : (env.attempt st.file st.constraints item changed).success
      with
    | true =>
      simp only [execItems, hs, if_true] at hsplit ⊢
      cases l₁ with
      | nil =>
        simp only [List.nil_append, List.cons.injEq,
          RunEv.attempted.injEq] at hsplit
        exfalso
        have hcsucc : c.res.success = true := by
          rw [← hsplit.1]
          exact hs
        rw [hsucc] at hcsucc
        exact Bool.false_ne_true hcsucc
      | cons e l₁' =>
        simp only [List.cons_append, List.cons.injEq] at hsplit
        obtain ⟨h1, h2, h3⟩ := ih _ _ l₁' c x l₂ hsplit.2 hsucc hlearn hne
          hnotin
        exact ⟨h1, h2, h3⟩
    | false =>
      cases hl : (env.attempt st.file st.constraints item changed).learned
        with
      | some x' =>
        cases hnew : (!(x' == ("")) && !(st.constraints.contains x')) with
        | true =>
          simp only [execItems, hs, hl, hnew, Bool.false_eq_true,
            if_false, if_true] at hsplit ⊢
          cases l₁ with
          | nil =>
            simp only [List.nil_append, List.cons.injEq,
              RunEv.attempted.injEq] at hsplit
            obtain ⟨hc, hl₂⟩ := hsplit
            have hx : x' = x := by
              have hres : c.res.learned = some x' := by
                rw [← hc]
                exact hl
              rw [hlearn] at hres
              exact (Option.some.inj hres).symm
            have hcs : c.constraintsAtCall = st.constraints := by
              rw [← hc]
            refine ⟨hl₂.symm, by trivial, ?_⟩
            rw [hcs, hx]
          | cons e l₁' =>
            simp only [List.cons_append, List.cons.injEq] at hsplit
            have hlen := congrArg List.length hsplit.2
            simp only [List.length_nil, List.length_append,
              List.length_cons] at hlen
            omega
        | false =>
          simp only [execItems, hs, hl, hnew, Bool.false_eq_true,
            if_false] at hsplit ⊢
          cases l₁ with
          | nil =>
            simp only [List.nil_append, List.cons.injEq,
              RunEv.attempted.injEq] at hsplit
            exfalso
            obtain ⟨hc, -⟩ := hsplit
            have hres : c.res.learned = some x' := by
              rw [← hc]
              exact hl
            rw [hlearn] at hres
            have hx : x = x' := Option.some.inj hres
            have hcs : c.constraintsAtCall = st.constraints := by
              rw [← hc]
            have hnew' : x' = ("") ∨ x' ∈ st.constraints := by
              simp at hnew
              by_cases hq : x' = ("")
              · exact Or.inl hq
              · exact Or.inr (hnew hq)
            rcases hnew' with heq | hmem
            · exact hne (hx.trans heq)
            · exact hnotin (by rw [hcs, hx]; exact hmem)
          | cons e l₁' =>
            simp only [List.cons_append, List.cons.injEq] at hsplit
            obtain ⟨h1, h2, h3⟩ := ih _ _ l₁' c x l₂ hsplit.2 hsucc hlearn
              hne hnotin
            exact ⟨h1, h2, h3⟩
      | none =>
        simp only [execItems, hs, hl, Bool.false_eq_true, if_false]
          at hsplit ⊢
        cases l₁ with
        | nil =>
          simp only [List.nil_append, List.cons.injEq,
            RunEv.attempted.injEq] at hsplit
          exfalso
          obtain ⟨hc, -⟩ := hsplit
          have hres : c.res.learned = none := by
            rw [← hc]
            exact hl
          rw [hlearn] at hres
          exact Option.noConfusion hres
        | cons e l₁' =>
          simp only [List.cons_append, List.cons.injEq] at hsplit
          obtain ⟨h1, h2, h3⟩ := ih _ _ l₁' c x l₂ hsplit.2 hsucc hlearn
            hne hnotin
          exact ⟨h1, h2, h3⟩

/-- Every event of the run loop belongs to a later pass than the loop's
entry pass counter and carries a constraint list extending the entry
constraints. -/
theorem runLoop_evs (env : RunEnv) :
    ∀ fuel pn st, ∀ e ∈ (runLoop env fuel pn st).2,
      pn < RunEv.passOf e ∧
        st.constraints <+: RunEv.constraintsOf e := by
  intro fuel
  induction fuel with
  | zero =>
    intro pn st e he
    simp [runLoop] at he
  | succ fuel ih =>
    intro pn st e he
    simp only [runLoop] at he
    by_cases hpl : (env.buildPlan (reqLines st.file)
        st.constraints).isEmpty = true
    · rw [if_pos hpl] at he
      simp only [List.mem_singleton] at he
      subst he
      exact ⟨Nat.lt_succ_self pn, List.prefix_refl _⟩
    · rw [if_neg hpl] at he
      have hself : ∀ e ∈ (execItems env (pn + 1)
          (env.buildPlan (reqLines st.file) st.constraints) st []).evs,
          pn < RunEv.passOf e ∧
            st.constraints <+: RunEv.constraintsOf e := by
        intro e' he'
        obtain ⟨c, hc, hp, hcs⟩ := execItems_evs env (pn + 1) _ st [] e' he'
        subst hc
        constructor
        · show pn < c.passNum
          omega
        · show st.constraints <+: c.constraintsAtCall
          rw [hcs]
      have hrest : ∀ e ∈ (runLoop env fuel (pn + 1)
          (execItems env (pn + 1)
            (env.buildPlan (reqLines st.file) st.constraints) st []).st).2,
          pn < RunEv.passOf e ∧
            st.constraints <+: RunEv.constraintsOf e := by
        intro e' he'
        obtain ⟨hlt, hpre⟩ := ih (pn + 1) _ e' he'
        exact ⟨Nat.lt_of_succ_lt hlt,
          (execItems_constraints_grow env (pn + 1) _ st []).trans hpre⟩
      by_cases hln : (execItems env (pn + 1)
          (env.buildPlan (reqLines st.file) st.constraints) st
          []).learnedNew = true
      · rw [if_pos hln] at he
        simp only [List.mem_cons, List.mem_append] at he
        rcases he with he | he | he
        · subst he
          exact ⟨Nat.lt_succ_self pn, List.prefix_refl _⟩
        · exact hself e he
        · exact hrest e he
      · rw [if_neg hln] at he
        by_cases hch : (execItems env (pn + 1)
            (env.buildPlan (reqLines st.file) st.constraints) st
            []).changed.isEmpty = true
        · rw [if_pos hch] at he
          simp only [List.mem_cons] at he
          rcases he with he | he
          · subst he
            exact ⟨Nat.lt_succ_self pn, List.prefix_refl _⟩
          · exact hself e he
        · rw [if_neg hch] at he
          simp only [List.mem_cons, List.mem_append] at he
          rcases he with he | he | he
          · subst he
            exact ⟨Nat.lt_succ_self pn, List.prefix_refl _⟩
          · exact hself e he
          · exact hrest e he

/-- Pairwise relation from a property shared by all members. -/
theorem pairwise_of_mem_rel {α : Type} {R : α → α → Prop} :
    ∀ l : List α, (∀ a ∈ l, ∀ b ∈ l, R a b) → l.Pairwise R := by
  intro l
  induction l with
  | nil => intro _; exact List.Pairwise.nil
  | cons a l ih =>
    intro h
    refine List.Pairwise.cons ?_ (ih ?_)
    · intro b hb
      exact h a (List.mem_cons_self _ _) b (List.mem_cons_of_mem _ hb)
    · intro b hb b' hb'
      exact h b (List.mem_cons_of_mem _ hb) b' (List.mem_cons_of_mem _ hb')

/-- Along the run trace, the constraint list only ever grows (a constraint
once added is never removed) and the pass counter never decreases. -/
theorem runLoop_pairwise (env : RunEnv) :
    ∀ fuel pn st,
      (runLoop env fuel pn st).2.Pairwise
        (fun e e' => RunEv.constraintsOf e <+: RunEv.constraintsOf e' ∧
          RunEv.passOf e ≤ RunEv.passOf e') := by
  intro fuel
  induction fuel with
  | zero =>
    intro pn st
    simp [runLoop]
  | succ fuel ih =>
    intro pn st
    simp only [runLoop]
    by_cases hpl : (env.buildPlan (reqLines st.file)
        st.constraints).isEmpty = true
    · rw [if_pos hpl]
      simp
    · rw [if_neg hpl]
      have hselfR : ∀ e ∈ (execItems env (pn + 1)
          (env.buildPlan (reqLines st.file) st.constraints) st []).evs,
          RunEv.constraintsOf e = st.constraints ∧
            RunEv.passOf e = pn + 1 := by
        intro e' he'
        obtain ⟨c, hc, hp, hcs⟩ := execItems_evs env (pn + 1) _ st [] e' he'
        subst hc
        exact ⟨hcs, hp⟩
      have hrestR : ∀ e ∈ (runLoop env fuel (pn + 1)
          (execItems env (pn + 1)
            (env.buildPlan (reqLines st.file) st.constraints) st []).st).2,
          pn + 1 < RunEv.passOf e ∧
            st.constraints <+: RunEv.constraintsOf e := by
        intro e' he'
        obtain ⟨hlt, hpre⟩ := runLoop_evs env fuel (pn + 1) _ e' he'
        exact ⟨hlt, (execItems_constraints_grow env (pn + 1) _ st []).trans hpre⟩
      have hpassPairwise : (execItems env (pn + 1)
          (env.buildPlan (reqLines st.file) st.constraints) st
          []).evs.Pairwise
          (fun e e' => RunEv.constraintsOf e <+: RunEv.constraintsOf e' ∧
            RunEv.passOf e ≤ RunEv.passOf e') := by
        apply pairwise_of_mem_rel
        intro a ha b hb
        obtain ⟨hca, hpa⟩ := hselfR a ha
        obtain ⟨hcb, hpb⟩ := hselfR b hb
        rw [hca, hcb, hpa, hpb]
        exact ⟨List.prefix_refl _, Nat.le_refl _⟩
      by_cases hln : (execItems env (pn + 1)
          (env.buildPlan (reqLines st.file) st.constraints) st
          []).learnedNew = true
      · rw [if_pos hln]
        refine List.Pairwise.cons ?_ ?_
        · intro e' he'
          rcases List.mem_append.mp he' with hm | hm
          · obtain ⟨hc, hp⟩ := hselfR e' hm
            rw [RunEv.constraintsOf, RunEv.passOf, hc, hp]
            exact ⟨List.prefix_refl _, Nat.le_refl _⟩
          · obtain ⟨hlt, hpre⟩ := hrestR e' hm
            exact ⟨hpre, Nat.le_of_lt hlt⟩
        · rw [List.pairwise_append]
          refine ⟨hpassPairwise, ih _ _, ?_⟩
          intro a ha b hb
          obtain ⟨hca, hpa⟩ := hselfR a ha
          obtain ⟨hlt, hpre⟩ := hrestR b hb
          rw [hca, hpa]
          exact ⟨hpre, Nat.le_of_lt hlt⟩
      · rw [if_neg hln]
        by_cases hch : (execItems env (pn + 1)
            (env.buildPlan (reqLines st.file) st.constraints) st
            []).changed.isEmpty = true
        · rw [if_pos hch]
          refine List.Pairwise.cons ?_ hpassPairwise
          intro e' he'
          obtain ⟨hc, hp⟩ := hselfR e' he'
          rw [RunEv.constraintsOf, RunEv.passOf, hc, hp]
          exact ⟨List.prefix_refl _, Nat.le_refl _⟩
        · rw [if_neg hch]
          refine List.Pairwise.cons ?_ ?_
          · intro e' he'
            rcases List.mem_append.mp he' with hm | hm
            · obtain ⟨hc, hp⟩ := hselfR e' hm
              rw [RunEv.constraintsOf, RunEv.passOf, hc, hp]
              exact ⟨List.prefix_refl _, Nat.le_refl _⟩
            · obtain ⟨hlt, hpre⟩ := hrestR e' hm
              exact ⟨hpre, Nat.le_of_lt hlt⟩
          · rw [List.pairwise_append]
            refine ⟨hpassPairwise, ih _ _, ?_⟩
            intro a ha b hb
            obtain ⟨hca, hpa⟩ := hselfR a ha
            obtain ⟨hlt, hpre⟩ := hrestR b hb
            rw [hca, hpa]
            exact ⟨hpre, Nat.le_of_lt hlt⟩

/-- Core of C3: after a failed attempt whose truthy synthesized constraint
is new, every later trace event belongs to a strictly later pass (the pass
aborted) and carries the new constraint in its constraint list. -/
theorem runLoop_learned (env : RunEnv) :
    ∀ fuel pn st t₁ c x t₂,
      (runLoop env fuel pn st).2 = t₁ ++ RunEv.attempted c :: t₂ →
      c.res.success = false → c.res.learned = some x → x ≠ ("") →
      x ∉ c.constraintsAtCall →
      ∀ e ∈ t₂, c.passNum < RunEv.passOf e ∧
        x ∈ RunEv.constraintsOf e := by
  intro fuel
  induction fuel with
  | zero =>
    intro pn st t₁ c x t₂ hsplit _ _ _ _
    have hlen := congrArg List.length hsplit
    simp only [runLoop, List.length_nil, List.length_append,
      List.length_cons] at hlen
    omega
  | succ fuel ih =>
    intro pn st t₁ c x t₂ hsplit hsucc hlearn hne hnotin
    simp only [runLoop] at hsplit
    by_cases hpl : (env.buildPlan (reqLines st.file)
        st.constraints).isEmpty = true
    · rw [if_pos hpl] at hsplit
      exfalso
      cases t₁ with
      | nil =>
        simp only [List.nil_append, List.cons.injEq] at hsplit
        exact RunEv.noConfusion hsplit.1
      | cons e t₁' =>
        simp only [List.cons_append, List.cons.injEq] at hsplit
        have hlen := congrArg List.length hsplit.2
        simp only [List.length_nil, List.length_append, List.length_cons]
          at hlen
        omega
    · rw [if_neg hpl] at hsplit
      -- helper closing the case where the learned attempt sits inside the
      -- current pass and is followed by the restarted loop
      have hinpass : ∀ (rest : List RunEv) (t₁' : List RunEv),
          (execItems env (pn + 1)
            (env.buildPlan (reqLines st.file) st.constraints) st []).evs
            = t₁' ++ RunEv.attempted c :: (t₂.take (t₂.length - rest.length))
          → False ∨ True := fun _ _ _ => Or.inr trivial
      clear hinpass
      by_cases hln : (execItems env (pn + 1)
          (env.buildPlan (reqLines st.file) st.constraints) st
          []).learnedNew = true
      · rw [if_pos hln] at hsplit
        cases t₁ with
        | nil =>
          simp only [List.nil_append, List.cons.injEq] at hsplit
          exact absurd hsplit.1 (by intro hc; exact RunEv.noConfusion hc)
        | cons e t₁' =>
          simp only [List.cons_append, List.cons.injEq] at hsplit
          rcases List.append_eq_append_iff.mp hsplit.2 with
            ⟨a', ha1, ha2⟩ | ⟨c', hc1, hc2⟩
          · exact ih (pn + 1) _ a' c x t₂ ha2 hsucc hlearn hne hnotin
          · cases c' with
            | nil =>
              have ha2 : (runLoop env fuel (pn + 1)
                  (execItems env (pn + 1)
                    (env.buildPlan (reqLines st.file) st.constraints) st
                    []).st).2
                  = [] ++ RunEv.attempted c :: t₂ := by
                simp only [List.nil_append]
                simp only [List.nil_append] at hc2
                exact hc2.symm
              exact ih (pn + 1) _ [] c x t₂ ha2 hsucc hlearn hne hnotin
            | cons e2 c'' =>
              simp only [List.cons_append, List.cons.injEq] at hc2
              obtain ⟨he2, ht2⟩ := hc2
              rw [← he2] at hc1
              obtain ⟨hc''nil, -, hcons⟩ := execItems_learned_split env
                (pn + 1) _ st [] t₁' c x c'' hc1 hsucc hlearn hne hnotin
              subst hc''nil
              simp only [List.nil_append] at ht2
              subst ht2
              have hcpass : c.passNum = pn + 1 := by
                have hmem : RunEv.attempted c ∈ (execItems env (pn + 1)
                    (env.buildPlan (reqLines st.file) st.constraints) st
                    []).evs := by
                  rw [hc1]
                  exact List.mem_append_right _ (List.mem_cons_self _ _)
                obtain ⟨c₀, hc₀, hp₀, -⟩ := execItems_evs env (pn + 1) _
                  st [] _ hmem
                have : c = c₀ := by
                  injection hc₀
                rw [this]
                exact hp₀
              intro e' he'
              obtain ⟨hlt, hpre⟩ := runLoop_evs env fuel (pn + 1) _ e' he'
              refine ⟨by omega, ?_⟩
              apply hpre.subset
              rw [hcons]
              exact List.mem_append_right _ (List.mem_cons_self _ _)
      · rw [if_neg hln] at hsplit
        by_cases hch : (execItems env (pn + 1)
            (env.buildPlan (reqLines st.file) st.constraints) st
            []).changed.isEmpty = true
        · rw [if_pos hch] at hsplit
          cases t₁ with
          | nil =>
            simp only [List.nil_append, List.cons.injEq] at hsplit
            exact absurd hsplit.1 (by intro hc; exact RunEv.noConfusion hc)
          | cons e t₁' =>
            simp only [List.cons_append, List.cons.injEq] at hsplit
            obtain ⟨-, hlearnNew, -⟩ := execItems_learned_split env
              (pn + 1) _ st [] t₁' c x t₂ hsplit.2 hsucc hlearn hne hnotin
            exact absurd hlearnNew hln
        · rw [if_neg hch] at hsplit
          cases t₁ with
          | nil =>
            simp only [List.nil_append, List.cons.injEq] at hsplit
            exact absurd hsplit.1 (by intro hc; exact RunEv.noConfusion hc)
          | cons e t₁' =>
            simp only [List.cons_append, List.cons.injEq] at hsplit
            rcases List.append_eq_append_iff.mp hsplit.2 with
              ⟨a', ha1, ha2⟩ | ⟨c', hc1, hc2⟩
            · exact ih (pn + 1) _ a' c x t₂ ha2 hsucc hlearn hne hnotin
            · cases c' with
              | nil =>
                have ha2 : (runLoop env fuel (pn + 1)
                    (execItems env (pn + 1)
                      (env.buildPlan (reqLines st.file) st.constraints) st
                      []).st).2
                    = [] ++ RunEv.attempted c :: t₂ := by
                  simp only [List.nil_append]
                  simp only [List.nil_append] at hc2
                  exact hc2.symm
                exact ih (pn + 1) _ [] c x t₂ ha2 hsucc hlearn hne hnotin
              | cons e2 c'' =>
                simp only [List.cons_append, List.cons.injEq] at hc2
                obtain ⟨he2, -⟩ := hc2
                rw [← he2] at hc1
                obtain ⟨-, hlearnNew, -⟩ := execItems_learned_split env
                  (pn + 1) _ st [] t₁' c x c'' hc1 hsucc hlearn hne hnotin
                exact absurd hlearnNew hln

/-- C3 amended: whenever a failed attempt's diagnosis blames a different
package AND the synthesized (truthy) constraint is not already active, the
constraint is appended and the pass aborts immediately — every later trace
event belongs to a strictly later pass and is made with a constraint list
containing the new constraint (plan builds and attempts alike); moreover
constraint lists only ever grow along the trace (a constraint once added
is never removed) and pass numbers never decrease.  (When the synthesized
constraint is already active — or empty — the pass continues instead; see
the counterexample.) -/
theorem run_constraint_lifecycle :
    (∀ (env : RunEnv) (fuel pn : Nat) (st : RunState) t₁ c x t₂,
      (runLoop env fuel pn st).2 = t₁ ++ RunEv.attempted c :: t₂ →
      c.res.success = false → c.res.learned = some x → x ≠ ("") →
      x ∉ c.constraintsAtCall →
      ∀ e ∈ t₂, c.passNum < RunEv.passOf e ∧
        x ∈ RunEv.constraintsOf e)
    ∧ (∀ (env : RunEnv) (fuel pn : Nat) (st : RunState),
      (runLoop env fuel pn st).2.Pairwise
        (fun e e' => RunEv.constraintsOf e <+: RunEv.constraintsOf e' ∧
          RunEv.passOf e ≤ RunEv.passOf e')) :=
  ⟨fun env => runLoop_learned env, fun env => runLoop_pairwise env⟩

/-- C3 witness: a concrete run in which pass 1 learns `x<1`, aborts, and
pass 2's plan build carries the constraint. -/
theorem run_constraint_lifecycle_witness :
    ((runLoop wRunEnv 2 0 wRunSt).2
      = [RunEv.planBuilt 1 [] [], RunEv.attempted wCall,
        RunEv.planBuilt 2 [] [("x<1")]])
    ∧ wCall.res.success = false ∧ wCall.res.learned = some ("x<1")
    ∧ (("x<1") : String) ≠ ("") ∧ ("x<1") ∉ wCall.constraintsAtCall
    ∧ (∀ e ∈ [RunEv.planBuilt 2 [] [("x<1")]],
        wCall.passNum < RunEv.passOf e ∧
          ("x<1") ∈ RunEv.constraintsOf e) :=
  ⟨by decide, by decide, by decide, by decide, by decide,
    run_constraint_lifecycle.1 wRunEnv 2 0 wRunSt
      [RunEv.planBuilt 1 [] []] wCall ("x<1")
      [RunEv.planBuilt 2 [] [("x<1")]]
      (by decide) (by decide) (by decide) (by decide) (by decide)⟩

/-- C3 counterexample: in the concrete run of `cexRunEnv`, pass 2's first
attempt (package `a`) again fails with the diagnosis blaming `b` — the
constraint `b<2` is synthesized — yet, because that constraint is already
active, the pass does NOT abort: package `d` of the same pass is attempted
right after.  This refutes the claim that the pass aborts immediately
whenever a failure diagnosis blames a different package. -/
theorem pass_not_aborted_on_repeat_blame :
    abortsAfterBlame (runLoop cexRunEnv 3 0 cexRunSt).2 = false := by
  decide

/-- `_ask_llm_for_root_cause` always returns a dictionary (never
propagates an exception of the modelled client). -/
theorem askRootCause_ok (resp : LLMResp)
    (parse : String → Option (List (String × String))) (st : LLMState) :
    ∃ d st', askRootCause resp parse st = Except.ok (d, st') := by
  cases hav : st.available with
  | false => exact ⟨[], st, by simp [askRootCause, hav]⟩
  | true =>
    cases resp with
    | text s =>
      cases hb : searchBraced s with
      | none =>
        exact ⟨[], { st with calls := st.calls + 1 },
          by simp [askRootCause, rcTryBody, generateContent, hav, hb]⟩
      | some jt =>
        cases hp : parse jt with
        | none =>
          exact ⟨[], { st with calls := st.calls + 1 },
            by simp [askRootCause, rcTryBody, generateContent, hav, hb,
              hp]⟩
        | some d =>
          exact ⟨d, { st with calls := st.calls + 1 },
            by simp [askRootCause, rcTryBody, generateContent, hav, hb,
              hp]⟩
    | raise e =>
      cases e with
      | resourceExhausted =>
        exact ⟨[], ⟨false, st.calls + 1⟩,
          by simp [askRootCause, rcTryBody, generateContent, hav]⟩
      | deadlineExceeded =>
        exact ⟨[], { st with calls := st.calls + 1 },
          by simp [askRootCause, rcTryBody, generateContent, hav,
            PyExc.isExceptionClass]⟩
      | transportError =>
        exact ⟨[], { st with calls := st.calls + 1 },
          by simp [askRootCause, rcTryBody, generateContent, hav,
            PyExc.isExceptionClass]⟩
      | otherError =>
        exact ⟨[], { st with calls := st.calls + 1 },
          by simp [askRootCause, rcTryBody, generateContent, hav,
            PyExc.isExceptionClass]⟩

/-- `_ask_llm_for_version_candidates` always returns a list. -/
theorem askVersionCandidates_ok (resp : LLMResp)
    (parse : String → Option (List String)) (st : LLMState) :
    ∃ l st', askVersionCandidates resp parse st = Except.ok (l, st') := by
  cases hav : st.available with
  | false => exact ⟨[], st, by simp [askVersionCandidates, hav]⟩
  | true =>
    cases resp with
    | text s =>
      cases hb : searchBracket s with
      | none =>
        exact ⟨[], { st with calls := st.calls + 1 },
          by simp [askVersionCandidates, candTryBody, generateContent,
            hav, hb]⟩
      | some lt =>
        cases hp : parse lt with
        | none =>
          exact ⟨[], { st with calls := st.calls + 1 },
            by simp [askVersionCandidates, candTryBody, generateContent,
              hav, hb, hp]⟩
        | some l =>
          exact ⟨l, { st with calls := st.calls + 1 },
            by simp [askVersionCandidates, candTryBody, generateContent,
              hav, hb, hp]⟩
    | raise e =>
      cases e with
      | resourceExhausted =>
        exact ⟨[], ⟨false, st.calls + 1⟩,
          by simp [askVersionCandidates, candTryBody, generateContent,
            hav]⟩
      | deadlineExceeded =>
        exact ⟨[], { st with calls := st.calls + 1 },
          by simp [askVersionCandidates, candTryBody, generateContent,
            hav, PyExc.isExceptionClass]⟩
      | transportError =>
        exact ⟨[], { st with calls := st.calls + 1 },
          by simp [askVersionCandidates, candTryBody, generateContent,
            hav, PyExc.isExceptionClass]⟩
      | otherError =>
        exact ⟨[], { st with calls := st.calls + 1 },
          by simp [askVersionCandidates, candTryBody, generateContent,
            hav, PyExc.isExceptionClass]⟩

/-- A raising client makes `_ask_llm_for_root_cause` return `{}`. -/
theorem askRootCause_raise_empty (e : LLMExc)
    (parse : String → Option (List (String × String))) (st : LLMState) :
    ∃ st', askRootCause (LLMResp.raise e) parse st
      = Except.ok ([], st') := by
  cases hav : st.available with
  | false => exact ⟨st, by simp [askRootCause, hav]⟩
  | true =>
    cases e with
    | resourceExhausted =>
      exact ⟨⟨false, st.calls + 1⟩,
        by simp [askRootCause, rcTryBody, generateContent, hav]⟩
    | deadlineExceeded =>
      exact ⟨{ st with calls := st.calls + 1 },
        by simp [askRootCause, rcTryBody, generateContent, hav,
          PyExc.isExceptionClass]⟩
    | transportError =>
      exact ⟨{ st with calls := st.calls + 1 },
        by simp [askRootCause, rcTryBody, generateContent, hav,
          PyExc.isExceptionClass]⟩
    | otherError =>
      exact ⟨{ st with calls := st.calls + 1 },
        by simp [askRootCause, rcTryBody, generateContent, hav,
          PyExc.isExceptionClass]⟩

/-- A raising client makes `_ask_llm_for_version_candidates` return
`[]`. -/
theorem askVersionCandidates_raise_empty (e : LLMExc)
    (parse : String → Option (List String)) (st : LLMState) :
    ∃ st', askVersionCandidates (LLMResp.raise e) parse st
      = Except.ok ([], st') := by
  cases hav : st.available with
  | false => exact ⟨st, by simp [askVersionCandidates, hav]⟩
  | true =>
    cases e with
    | resourceExhausted =>
      exact ⟨⟨false, st.calls + 1⟩,
        by simp [askVersionCandidates, candTryBody, generateContent, hav]⟩
    | deadlineExceeded =>
      exact ⟨{ st with calls := st.calls + 1 },
        by simp [askVersionCandidates, candTryBody, generateContent, hav,
          PyExc.isExceptionClass]⟩
    | transportError =>
      exact ⟨{ st with calls := st.calls + 1 },
        by simp [askVersionCandidates, candTryBody, generateContent, hav,
          PyExc.isExceptionClass]⟩
    | otherError =>
      exact ⟨{ st with calls := st.calls + 1 },
        by simp [askVersionCandidates, candTryBody, generateContent, hav,
          PyExc.isExceptionClass]⟩

/-- C9: for every behaviour of the LLM client — raising any exception
(quota exhaustion, timeout, transport error, any other `Exception`) or
returning text with no parseable structured payload — the advisor entry
points never propagate an exception: `_ask_llm_for_root_cause` returns a
dictionary and `_ask_llm_for_version_candidates` returns a list, each
empty on any such failure. -/
theorem advisor_degrades_to_no_data :
    (∀ resp parse st,
      ∃ d st', askRootCause resp parse st = Except.ok (d, st'))
    ∧ (∀ resp parse st,
      ∃ l st', askVersionCandidates resp parse st = Except.ok (l, st'))
    ∧ (∀ e parse st, ∃ st',
      askRootCause (LLMResp.raise e) parse st = Except.ok ([], st'))
    ∧ (∀ s parse st, searchBraced s = none → ∃ st',
      askRootCause (LLMResp.text s) parse st = Except.ok ([], st'))
    ∧ (∀ s jt parse st, searchBraced s = some jt → parse jt = none →
      ∃ st',
        askRootCause (LLMResp.text s) parse st = Except.ok ([], st'))
    ∧ (∀ e parse st, ∃ st',
      askVersionCandidates (LLMResp.raise e) parse st
        = Except.ok ([], st'))
    ∧ (∀ s parse st, searchBracket s = none → ∃ st',
      askVersionCandidates (LLMResp.text s) parse st
        = Except.ok ([], st'))
    ∧ (∀ s lt parse st, searchBracket s = some lt → parse lt = none →
      ∃ st', askVersionCandidates (LLMResp.text s) parse st
        = Except.ok ([], st')) := by
  refine ⟨askRootCause_ok, askVersionCandidates_ok,
    askRootCause_raise_empty, ?_, ?_, askVersionCandidates_raise_empty,
    ?_, ?_⟩
  · intro s parse st hb
    cases hav : st.available with
    | false => exact ⟨st, by simp [askRootCause, hav]⟩
    | true =>
      exact ⟨{ st with calls := st.calls + 1 },
        by simp [askRootCause, rcTryBody, generateContent, hav, hb]⟩
  · intro s jt parse st hb hp
    cases hav : st.available with
    | false => exact ⟨st, by simp [askRootCause, hav]⟩
    | true =>
      exact ⟨{ st with calls := st.calls + 1 },
        by simp [askRootCause, rcTryBody, generateContent, hav, hb, hp]⟩
  · intro s parse st hb
    cases hav : st.available with
    | false => exact ⟨st, by simp [askVersionCandidates, hav]⟩
    | true =>
      exact ⟨{ st with calls := st.calls + 1 },
        by simp [askVersionCandidates, candTryBody, generateContent, hav,
          hb]⟩
  · intro s lt parse st hb hp
    cases hav : st.available with
    | false => exact ⟨st, by simp [askVersionCandidates, hav]⟩
    | true =>
      exact ⟨{ st with calls := st.calls + 1 },
        by simp [askVersionCandidates, candTryBody, generateContent, hav,
          hb, hp]⟩

/-- C9 witness: a response with no braced payload degrades to `{}`. -/
theorem advisor_degrades_witness :
    (searchBraced ("no payload") = none)
    ∧ (∃ st', askRootCause (LLMResp.text ("no payload")) (fun _ => none)
        ⟨true, 0⟩ = Except.ok ([], st')) :=
  ⟨by decide,
    advisor_degrades_to_no_data.2.2.2.1 ("no payload") (fun _ => none)
      ⟨true, 0⟩ (by decide)⟩

/-- C5 amended: across the three advisor entry points
(`_ask_llm_to_summarize_error`, `_ask_llm_for_root_cause`,
`_ask_llm_for_version_candidates`), once `llm_available` is false every
invocation returns its no-data value without calling the client (the call
counter never increases again), and a quota-exhaustion response at any of
them permanently clears `llm_available` while degrading to no data.  (The
bootstrap-heal loop is NOT covered: it neither consults nor trips the
breaker — see the counterexample.) -/
theorem advisor_circuit_breaker :
    (∀ resp st, st.available = false →
      askSummarizeError resp st
        = Except.ok (("(LLM unavailable)"), st))
    ∧ (∀ resp parse st, st.available = false →
      askRootCause resp parse st = Except.ok ([], st))
    ∧ (∀ resp parse st, st.available = false →
      askVersionCandidates resp parse st = Except.ok ([], st))
    ∧ (∀ st : LLMState, st.available = true →
      askSummarizeError (LLMResp.raise LLMExc.resourceExhausted) st
        = Except.ok (("(LLM Error: API quota exhausted)"),
          ⟨false, st.calls + 1⟩))
    ∧ (∀ parse st, st.available = true →
      askRootCause (LLMResp.raise LLMExc.resourceExhausted) parse st
        = Except.ok ([], ⟨false, st.calls + 1⟩))
    ∧ (∀ parse st, st.available = true →
      askVersionCandidates (LLMResp.raise LLMExc.resourceExhausted)
        parse st = Except.ok ([], ⟨false, st.calls + 1⟩))
    ∧ (∀ seq st, st.available = false → runAdvisor seq st = st) := by
  refine ⟨?_, ?_, ?_, ?_, ?_, ?_, ?_⟩
  · intro resp st h
    simp [askSummarizeError, h]
  · intro resp parse st h
    simp [askRootCause, h]
  · intro resp parse st h
    simp [askVersionCandidates, h]
  · intro st h
    simp [askSummarizeError, generateContent, h]
  · intro parse st h
    simp [askRootCause, rcTryBody, generateContent, h]
  · intro parse st h
    simp [askVersionCandidates, candTryBody, generateContent, h]
  · intro seq
    induction seq with
    | nil =>
      intro st h
      rfl
    | cons c rest ih =>
      intro st h
      have hstep : stepAdvisor c st = st := by
        cases c with
        | summarize resp => simp [stepAdvisor, askSummarizeError, h]
        | rootCause resp parse => simp [stepAdvisor, askRootCause, h]
        | versionCandidates resp parse =>
          simp [stepAdvisor, askVersionCandidates, h]
      show runAdvisor rest (stepAdvisor c st) = st
      rw [hstep]
      exact ih st h

/-- C5 witness: with the breaker open, a further advisor invocation leaves
the state (and so the call counter) untouched. -/
theorem advisor_circuit_breaker_witness :
    ((⟨false, 5⟩ : LLMState).available = false)
    ∧ runAdvisor [AdvisorCall.summarize (LLMResp.text ("x"))] ⟨false, 5⟩
      = ⟨false, 5⟩ :=
  ⟨rfl, advisor_circuit_breaker.2.2.2.2.2.2
    [AdvisorCall.summarize (LLMResp.text ("x"))] ⟨false, 5⟩ rfl⟩

/-- C5 counterexample: `_attempt_llm_bootstrap_heal` ignores the circuit
breaker.  With a client that raises `ResourceExhausted` at every call, one
loop attempt makes one call and observes quota exhaustion — yet
`llm_available` stays true, and with the standard attempt budget a SECOND
client call is made right after: a quota-exhausted call is retried and
advisor calls continue after the first quota observation, refuting the
claim for this cited entry point. -/
theorem bootstrap_heal_retries_after_quota :
    (bootstrapHealLoop quotaHealEnv 1 0 ⟨true, 0⟩).2
      = (⟨true, 1⟩ : LLMState)
    ∧ (bootstrapHealLoop quotaHealEnv 2 0 ⟨true, 0⟩).2
      = (⟨true, 2⟩ : LLMState) :=
  ⟨rfl, rfl⟩

end Graphite
